import Mathlib

/-!
# Verification of the pinewood-derby reconciliation and ranking engine

Shallow embedding of the JavaScript sources of `pinewood-derby-report`
(`src/utils/sqliteParser.js`, `src/utils/dataProcessor.js`, and the
`ResultsTable` component), together with proofs about the embedded
functions.

Modelling conventions:
* JavaScript numbers are modelled as rationals; a field that can be
  `null` is modelled as an `Option`.
* `Math.sqrt` operates on floating point numbers and has no exact
  counterpart on rationals; it is passed as an explicit function
  parameter `sqrt : Rat → Rat` to the statistics aggregator.  Every
  theorem below holds for an arbitrary such function: the claims only
  use congruence of `Math.sqrt` (equal inputs give equal outputs) and
  never its numeric value.
* JS `Map`s and `Set`s iterate in insertion order; they are modelled
  with lists deduplicated by first occurrence (`dedupKeys`).
* A JS object used as a dictionary is modelled as an association list;
  assignment appends, and lookup takes the last matching entry.
* `Array.prototype.sort` with a `(a, b) => keyA - keyB` comparator is a
  stable ascending sort in all modern engines; it is modelled with
  `List.insertionSort`, which is stable: an element is inserted before
  exactly the strictly larger elements of the already sorted suffix, so
  equal keys keep their input order.
-/

namespace Derby

/-- Worker for `dedupKeys`: keep the elements not seen before, in
order, remembering the seen ones in `seen`. -/
def dedupKeysAux {α : Type} [DecidableEq α] (seen : List α) : List α → List α
  | [] => []
  | k :: ks =>
    if k ∈ seen then dedupKeysAux seen ks
    else k :: dedupKeysAux (k :: seen) ks

/-- First-occurrence deduplication.  `dedupKeys l` lists the distinct
elements of `l` in the order of their first occurrence, matching the
iteration order of a JS `Set` (or of the keys of a JS `Map`) built by
insertion. -/
def dedupKeys {α : Type} [DecidableEq α] (l : List α) : List α :=
  dedupKeysAux [] l

/-- `Math.max(...xs)` on a list of numbers.  The empty case (JS would
give `-Infinity`) is modelled as `0`; every call site below guards
against the empty list first. -/
def jsMax : List Rat → Rat
  | [] => 0
  | x :: xs => xs.foldl max x

/-- `Math.min(...xs)` on a list of numbers, empty case modelled as `0`
(never reached at the call sites below). -/
def jsMin : List Rat → Rat
  | [] => 0
  | x :: xs => xs.foldl min x

/-- JS `String.prototype.toLowerCase`, character-wise over the basic
latin range (all class-name keywords in the source are ASCII). -/
def jsToLowerCase (s : String) : String :=
  String.mk (s.data.map Char.toLower)

/-- JS `String.prototype.includes`: substring containment. -/
def jsIncludes (hay needle : String) : Bool :=
  decide (needle.data <:+: hay.data)

/-! ## Embedding of `src/utils/sqliteParser.js` -/

/-- `STANDARD_DEN_NAMES` from `sqliteParser.js`: the fixed, ordered
vocabulary of standard class names. -/
def STANDARD_DEN_NAMES : List String :=
  ["Lion Den", "Tiger Den", "Wolf Den", "Bear Den", "Webelos Den",
   "Arrow of Light", "Grand Finals"]

/-- `SKIP_CLASS` from `sqliteParser.js`: sentinel meaning a class is
excluded from the import. -/
def SKIP_CLASS : String := "__SKIP__"

/-- `guessStandardDenName` from `sqliteParser.js`: best-guess mapping
from a raw class name to a standard den name, by case-insensitive
keyword search; `none` when no keyword matches. -/
def guessStandardDenName (rawClassName : String) : Option String :=
  let lower := jsToLowerCase rawClassName
  if jsIncludes lower "lion" then some "Lion Den"
  else if jsIncludes lower "tiger" then some "Tiger Den"
  else if jsIncludes lower "wolf" || jsIncludes lower "wolves" then some "Wolf Den"
  else if jsIncludes lower "bear" then some "Bear Den"
  else if jsIncludes lower "webelos" then some "Webelos Den"
  else if jsIncludes lower "arrow" || jsIncludes lower "aol" then some "Arrow of Light"
  else if jsIncludes lower "grand" || jsIncludes lower "final" then some "Grand Finals"
  else none

/-- One raw intermediate record, as produced by `extractIntermediateData`
and consumed by `applyClassMapping` (field names follow the JS
object keys).  `FinishTime` is `none` for a SQL `NULL`. -/
structure RawRecord where
  Year : Nat
  FirstName : String
  LastName : String
  CarNumber : Nat
  CarName : Option String
  Class : String
  RoundID : Nat
  Heat : Nat
  Lane : Nat
  Completed : Bool
  FinishTime : Option Rat
  FinishPlace : Nat
deriving Repr, DecidableEq

instance : Inhabited RawRecord :=
  ⟨{ Year := 0, FirstName := "", LastName := "", CarNumber := 0, CarName := none,
     Class := "", RoundID := 0, Heat := 0, Lane := 0, Completed := false,
     FinishTime := none, FinishPlace := 0 }⟩

/-- A canonical record: the spread `{...record, OriginalClass, Class,
KidCarYear}` built by `applyClassMapping`. -/
structure CanonRecord where
  Year : Nat
  FirstName : String
  LastName : String
  CarNumber : Nat
  CarName : Option String
  Class : String
  OriginalClass : String
  KidCarYear : String
  RoundID : Nat
  Heat : Nat
  Lane : Nat
  Completed : Bool
  FinishTime : Option Rat
  FinishPlace : Nat
deriving Repr, DecidableEq

/-- Lookup in a class mapping (a JS object from raw class label to
standard den name).  `none` models an absent key (JS `undefined`). -/
def lookupMapping (m : List (String × String)) (c : String) : Option String :=
  (m.find? (fun p => p.1 = c)).map (fun p => p.2)

/-- JS truthiness test `classMapping[record.Class] && mappedClass !== SKIP_CLASS`
used by the filter inside `applyClassMapping`: the label must have an
entry, and the entry must be a non-empty string other than `SKIP_CLASS`. -/
def hasUsableMapping (m : List (String × String)) (c : String) : Bool :=
  match lookupMapping m c with
  | some s => s ≠ "" && s ≠ SKIP_CLASS
  | none => false

/-- JS `a || b` on strings: `b` when `a` is absent or empty. -/
def jsOrString (a : Option String) (b : String) : String :=
  match a with
  | some s => if s = "" then b else s
  | none => b

/-- The apostrophe character, used inside the `KidCarYear` identity string. -/
def apos : String := String.mk [Char.ofNat 39]

/-- The identity string
`` `${FirstName} ${LastName} (#${CarNumber}${apos}${year}) - ${mappedClass}` ``
built by `applyClassMapping`. -/
def mkKidCarYear (firstName lastName : String) (carNumber year : Nat)
    (cls : String) : String :=
  firstName ++ " " ++ lastName ++ " (#" ++ toString carNumber ++ apos ++
    toString year ++ ") - " ++ cls

/-- `applyClassMapping` from `src/utils/sqliteParser.js` (current
version): drop records whose raw label has no usable mapping entry,
then rewrite `Class` through the mapping and recompute `KidCarYear`. -/
def applyClassMapping (records : List RawRecord)
    (classMapping : List (String × String)) (year : Nat) : List CanonRecord :=
  let filteredRecords := records.filter (fun r => hasUsableMapping classMapping r.Class)
  filteredRecords.map (fun record =>
    let mappedClass := jsOrString (lookupMapping classMapping record.Class) record.Class
    { Year := record.Year
      FirstName := record.FirstName
      LastName := record.LastName
      CarNumber := record.CarNumber
      CarName := record.CarName
      Class := mappedClass
      OriginalClass := record.Class
      KidCarYear := mkKidCarYear record.FirstName record.LastName record.CarNumber year mappedClass
      RoundID := record.RoundID
      Heat := record.Heat
      Lane := record.Lane
      Completed := record.Completed
      FinishTime := record.FinishTime
      FinishPlace := record.FinishPlace })

/-- `applyClassMapping` from the legacy variant of the parser
(`src/unnamed/part_003`): no filtering at all, and an unmapped raw
label falls through unchanged via `classMapping[record.Class] || record.Class`. -/
def applyClassMappingLegacy (records : List RawRecord)
    (classMapping : List (String × String)) (year : Nat) : List CanonRecord :=
  records.map (fun record =>
    let mappedClass := jsOrString (lookupMapping classMapping record.Class) record.Class
    { Year := record.Year
      FirstName := record.FirstName
      LastName := record.LastName
      CarNumber := record.CarNumber
      CarName := record.CarName
      Class := mappedClass
      OriginalClass := record.Class
      KidCarYear := mkKidCarYear record.FirstName record.LastName record.CarNumber year mappedClass
      RoundID := record.RoundID
      Heat := record.Heat
      Lane := record.Lane
      Completed := record.Completed
      FinishTime := record.FinishTime
      FinishPlace := record.FinishPlace })

/-- The racer identity key used by `performSanityCheck`:
`` `${FirstName}|${LastName}|${CarNumber}` ``. -/
def getRacerKey (r : CanonRecord) : String :=
  r.FirstName ++ "|" ++ r.LastName ++ "|" ++ toString r.CarNumber

/-- The display name `` `${FirstName} ${LastName} (#${CarNumber})` `` stored in
`denParticipation` for reporting. -/
def displayName (r : CanonRecord) : String :=
  r.FirstName ++ " " ++ r.LastName ++ " (#" ++ toString r.CarNumber ++ ")"

/-- Value stored per racer key in `denParticipation`: the distinct
non-finals classes the racer appears in, plus a display name. -/
structure ParticipationEntry where
  dens : List String
  name : String
deriving Repr, DecidableEq

/-- One element of a finding `details` array.  For `no-den` findings the
JS objects carry no `dens` field; that absent field is modelled as `[]`. -/
structure DetailEntry where
  racerKey : String
  name : String
  dens : List String
deriving Repr, DecidableEq

/-- One entry of the `warnings` array returned by `performSanityCheck`. -/
structure Finding where
  type : String
  severity : String
  message : String
  details : List DetailEntry
deriving Repr, DecidableEq

/-- Return value of `performSanityCheck`. -/
structure SanityResult where
  isValid : Bool
  warnings : List Finding
  denParticipation : List (String × ParticipationEntry)
deriving Repr, DecidableEq

/-- The `denParticipation` map built by `performSanityCheck`: for every
distinct racer key in first-occurrence order, the distinct non-finals
classes it appears under and a display name taken from its first
record. -/
def participationOf (mergedRecords : List CanonRecord) (grandFinalsClass : String) :
    List (String × ParticipationEntry) :=
  (dedupKeys (mergedRecords.map getRacerKey)).filterMap (fun racerKey =>
    let participantRecords := mergedRecords.filter (fun r => getRacerKey r = racerKey)
    (participantRecords.head?).map (fun sampleRecord =>
      (racerKey,
       { dens := (dedupKeys (participantRecords.map (fun r => r.Class))).filter
           (fun cls => cls ≠ grandFinalsClass)
         name := displayName sampleRecord })))

/-- The `multiDenRacers` list: participation entries with more than one
den. -/
def multiDenOf (denParticipation : List (String × ParticipationEntry)) :
    List DetailEntry :=
  denParticipation.filterMap (fun p =>
    if 1 < p.2.dens.length then
      some { racerKey := p.1, name := p.2.name, dens := p.2.dens }
    else none)

/-- The `noDenRacers` list: participation entries with no den at all
that do appear in the finals class. -/
def noDenOf (mergedRecords : List CanonRecord) (grandFinalsClass : String)
    (denParticipation : List (String × ParticipationEntry)) : List DetailEntry :=
  denParticipation.filterMap (fun p =>
    if 1 < p.2.dens.length then none
    else if p.2.dens.length = 0 then
      if mergedRecords.any (fun r =>
          decide (getRacerKey r = p.1) && decide (r.Class = grandFinalsClass)) then
        some { racerKey := p.1, name := p.2.name, dens := [] }
      else none
    else none)

/-- The `warnings` array assembled by `performSanityCheck`. -/
def sanityWarningsOf (multiDenRacers noDenRacers : List DetailEntry) : List Finding :=
  (if 0 < multiDenRacers.length then
    [{ type := "multi-den", severity := "error"
       message := toString multiDenRacers.length ++ " racer(s) appear in multiple den races"
       details := multiDenRacers }]
   else []) ++
  (if 0 < noDenRacers.length then
    [{ type := "no-den", severity := "warning"
       message := toString noDenRacers.length ++
         " racer(s) appear only in Grand Finals without a den race"
       details := noDenRacers }]
   else [])

/-- `performSanityCheck` from `src/utils/sqliteParser.js` (current
version): for every distinct racer key, collect the distinct non-finals
classes it appears under; racers spanning more than one den yield an
error finding, racers appearing only in the finals class yield a
warning finding. -/
def performSanityCheck (mergedRecords : List CanonRecord)
    (grandFinalsClass : String := "Grand Finals") : SanityResult :=
  let denParticipation := participationOf mergedRecords grandFinalsClass
  let multiDenRacers := multiDenOf denParticipation
  let noDenRacers := noDenOf mergedRecords grandFinalsClass denParticipation
  let warnings := sanityWarningsOf multiDenRacers noDenRacers
  { isValid := (warnings.filter (fun w => w.severity == "error")).length == 0
    warnings := warnings
    denParticipation := denParticipation }

/-! ## Embedding of `src/utils/dataProcessor.js` -/

/-- The possible JS values reaching `formatTime`: `null`, `undefined`,
`NaN`, or an actual number (modelled as a rational). -/
inductive JSNum where
  | null
  | undefined
  | nan
  | num (q : Rat)
deriving Repr, DecidableEq

/-- The decimal digit character of `n % 10`. -/
def digitChar10 (n : Nat) : Char := Char.ofNat (48 + n % 10)

/-- Little-endian decimal digits of `n` (at least one digit), recursing
on a fuel parameter; `fuel = n` always suffices, since the number of
decimal digits of `n` never exceeds `n`. -/
def natDigitsRevAux : Nat → Nat → List Char
  | 0, n => [digitChar10 n]
  | fuel + 1, n =>
    if n < 10 then [digitChar10 n]
    else digitChar10 n :: natDigitsRevAux fuel (n / 10)

/-- Little-endian decimal digits of a natural number (at least one digit). -/
def natDigitsRev (n : Nat) : List Char := natDigitsRevAux n n

/-- Decimal rendering of a natural number. -/
def natToString (n : Nat) : String :=
  String.mk (natDigitsRev n).reverse

/-- Left-pad a string with the digit zero up to width `d`. -/
def padZeros (s : String) (d : Nat) : String :=
  String.mk (List.replicate (d - s.length) (Char.ofNat 48)) ++ s

/-- Model of `Number.prototype.toFixed` on an exact rational: ECMA-262
picks the integer `n` with `n / 10^d` closest to the value, the larger
`n` on ties, which for non-negative values is `floor(x * 10^d + 1/2)`;
the digits are then rendered with `d` places after the point.
`formatTime` only ever calls this with a positive value (negative
values, where `toFixed` would also emit a sign, are unreachable). -/
def jsToFixed (q : Rat) (d : Nat) : String :=
  let scaled : Int := (q * (10 : Rat) ^ d + 1 / 2).floor
  let n : Nat := scaled.toNat
  if d = 0 then natToString n
  else natToString (n / 10 ^ d) ++ "." ++ padZeros (natToString (n % 10 ^ d)) d

/-- `formatTime` from `dataProcessor.js`:
`if (!time || time <= 0) return "-"` then `time.toFixed(decimals)`.
For `null`, `undefined` and `NaN` the guard `!time` is already true, so
only genuine numbers reach `toFixed`; for a number `q` the guard is
`q = 0 ∨ q ≤ 0`. -/
def formatTime (time : JSNum) (decimals : Nat := 3) : String :=
  match time with
  | .num q => if q = 0 ∨ q ≤ 0 then "-" else jsToFixed q decimals
  | _ => "-"

/-- One element of the `raceResults` array built inside
`processIntermediateData` (field names follow the JS object keys). -/
structure RaceResult where
  racerId : String
  firstName : String
  lastName : String
  carNumber : Nat
  carName : String
  classId : Nat
  className : String
  roundId : Nat
  heat : Nat
  lane : Nat
  finishTime : Rat
  finishPlace : Nat
  completed : Bool
  kidCarYear : String
deriving Repr, DecidableEq

/-- One element of the array returned by `calculateRacerStatsFromMapped`. -/
structure RacerStats where
  racerId : String
  firstName : String
  lastName : String
  carNumber : Nat
  carName : String
  classId : Nat
  className : String
  kidCarYear : String
  avgTime : Rat
  avgExceptSlowest : Rat
  bestTime : Rat
  worstTime : Rat
  median : Rat
  stdDev : Rat
  raceCount : Nat
deriving Repr, DecidableEq

/-- The grouping key `` `${result.kidCarYear}|${result.className}` `` used by
`calculateRacerStatsFromMapped`. -/
def groupKey (r : RaceResult) : String := r.kidCarYear ++ "|" ++ r.className

/-- The grouping key of a produced stats record (same format). -/
def statsGroupKey (s : RacerStats) : String := s.kidCarYear ++ "|" ++ s.className

/-- The `times` array accumulated for group `k`: the finish times of the
records with that key, in input order. -/
def groupTimes (raceResults : List RaceResult) (k : String) : List Rat :=
  (raceResults.filter (fun r => groupKey r = k)).map (fun r => r.finishTime)

/-- Body of the `map` inside `calculateRacerStatsFromMapped`: the
statistics of one group, whose descriptive fields come from the first
record of the group (`rep`) and whose `times` are `groupTimesList`.
`sqrt` stands for `Math.sqrt` (see the module docstring). -/
def statsOfGroup (sqrt : Rat → Rat) (rep : RaceResult)
    (groupTimesList : List Rat) : RacerStats :=
  let times := groupTimesList.filter (fun t => decide (0 < t))
  let n := times.length
  if n = 0 then
    { racerId := rep.racerId, firstName := rep.firstName, lastName := rep.lastName
      carNumber := rep.carNumber, carName := rep.carName, classId := rep.classId
      className := rep.className, kidCarYear := rep.kidCarYear
      avgTime := 0, avgExceptSlowest := 0, bestTime := 0, worstTime := 0
      median := 0, stdDev := 0, raceCount := 0 }
  else
    let sorted := times.insertionSort (fun a b => a ≤ b)
    let sum := times.foldl (· + ·) 0
    let avg := sum / (n : Rat)
    let mx := jsMax times
    let mn := jsMin times
    let avgES := if 1 < n then (sum - mx) / ((n : Rat) - 1) else avg
    let median :=
      if n % 2 = 0 then (sorted.getD (n / 2 - 1) 0 + sorted.getD (n / 2) 0) / 2
      else sorted.getD (n / 2) 0
    let squaredDiffs := times.map (fun t => (t - avg) ^ 2)
    let avgSquaredDiff := (squaredDiffs.foldl (· + ·) 0) / (n : Rat)
    { racerId := rep.racerId, firstName := rep.firstName, lastName := rep.lastName
      carNumber := rep.carNumber, carName := rep.carName, classId := rep.classId
      className := rep.className, kidCarYear := rep.kidCarYear
      avgTime := avg, avgExceptSlowest := avgES, bestTime := mn, worstTime := mx
      median := median, stdDev := sqrt avgSquaredDiff, raceCount := n }

/-- `calculateRacerStatsFromMapped` from `dataProcessor.js`.  The JS
builds a `Map` keyed by `kidCarYear|className`; each entry stores the
descriptive fields of the first record seen for that key and the list
of the finish times of all its records in input order, and the `Map` is
then traversed in insertion order (first-occurrence order of the keys).
That is embedded as: for each key in first-occurrence order, the first
matching record supplies the descriptive fields and the filtered times
of all matching records supply the statistics. -/
def calculateRacerStatsFromMapped (sqrt : Rat → Rat)
    (raceResults : List RaceResult) : List RacerStats :=
  (dedupKeys (raceResults.map groupKey)).filterMap (fun k =>
    (raceResults.find? (fun r => groupKey r = k)).map (fun rep =>
      statsOfGroup sqrt rep (groupTimes raceResults k)))

/-- One element of the `classes` array built by `processIntermediateData`. -/
structure ClassEntry where
  id : Nat
  name : String
deriving Repr, DecidableEq

/-- `denOrder.indexOf(name)` over `STANDARD_DEN_NAMES`: position, or `-1`
when the name is not a standard den name. -/
def denIdx (c : String) : Int :=
  match STANDARD_DEN_NAMES.indexOf? c with
  | some i => (i : Int)
  | none => -1

/-- The `classes` array: distinct class names of the merged table in
first-occurrence order, stably sorted by the comparator
`(a, b) => denOrder.indexOf(a) - denOrder.indexOf(b)` (a stable
ascending sort on `denIdx`), then numbered from 1. -/
def classesOf (mergedData : List CanonRecord) : List ClassEntry :=
  let classesWithData := dedupKeys (mergedData.map (fun r => r.Class))
  ((classesWithData.insertionSort (fun a b => denIdx a ≤ denIdx b)).enum).map
    (fun p => { id := p.1 + 1, name := p.2 })

/-- The filter `r.FinishTime && r.FinishTime > 0`: a present, positive
finish time (`0` is falsy, `null` has no positive comparison). -/
def posFinish (r : CanonRecord) : Bool :=
  match r.FinishTime with
  | some q => decide (0 < q)
  | none => false

/-- The per-record conversion inside the `raceResults` construction of
`processIntermediateData`.  `classId` is
`classes.find(c => c.name === r.Class)?.id || 0`. -/
def toRaceResult (classes : List ClassEntry) (r : CanonRecord) : RaceResult :=
  { racerId := r.KidCarYear
    firstName := r.FirstName
    lastName := r.LastName
    carNumber := r.CarNumber
    carName := (r.CarName).getD ""
    classId := ((classes.find? (fun c => c.name = r.Class)).map (fun c => c.id)).getD 0
    className := r.Class
    roundId := r.RoundID
    heat := r.Heat
    lane := r.Lane
    finishTime := (r.FinishTime).getD 0
    finishPlace := r.FinishPlace
    completed := r.Completed
    kidCarYear := r.KidCarYear }

/-- JS object lookup on an assignment list: the most recent assignment
to the key wins. -/
def jsGetLast {V : Type} (obj : List (String × V)) (key : String) : Option V :=
  (obj.reverse.find? (fun p => p.1 = key)).map (fun p => p.2)

/-- The in-place `sort((a, b) => a.avgExceptSlowest - b.avgExceptSlowest)`
applied to each class result list: stable ascending sort. -/
def sortStats (l : List RacerStats) : List RacerStats :=
  l.insertionSort (fun a b => a.avgExceptSlowest ≤ b.avgExceptSlowest)

/-- `classes.filter(c => c.name !== "Grand Finals")`: the non-finals (den)
classes, in class order. -/
def denClassesOf (classes : List ClassEntry) : List ClassEntry :=
  classes.filter (fun c => c.name ≠ "Grand Finals")

/-- The `resultsByClass` object: for each class, its stats records
sorted ascending by `avgExceptSlowest`, assigned under the lowercased
class name. -/
def resultsByClassOf (classes : List ClassEntry) (racerStats : List RacerStats) :
    List (String × List RacerStats) :=
  classes.map (fun cls =>
    (jsToLowerCase cls.name, sortStats (racerStats.filter (fun r => r.className = cls.name))))

/-- The `finalists` array: for each den class, the head of its sorted
result list when that list is non-empty. -/
def finalistsOf (classes : List ClassEntry)
    (resultsByClass : List (String × List RacerStats)) : List String :=
  (denClassesOf classes).filterMap (fun cls =>
    match jsGetLast resultsByClass (jsToLowerCase cls.name) with
    | some results => (results.head?).map (fun r => r.racerId)
    | none => none)

/-- The `allDenResults` array: the den class result lists flattened in
class order. -/
def allDenResultsOf (classes : List ClassEntry)
    (resultsByClass : List (String × List RacerStats)) : List RacerStats :=
  (denClassesOf classes).flatMap (fun cls =>
    (jsGetLast resultsByClass (jsToLowerCase cls.name)).getD [])

/-- The `nonFinalists` array: den results whose `racerId` is not a finalist. -/
def nonFinalistsOf (allDenResults : List RacerStats) (finalists : List String) :
    List RacerStats :=
  allDenResults.filter (fun r => !(finalists.contains r.racerId))

/-- The `wildcards` array: the non-finalists, sorted ascending by
`avgExceptSlowest`, cut to `Math.max(0, 12 - finalists.length)` (which
on naturals is the truncated subtraction `12 - finalists.length`). -/
def wildcardsOf (nonFinalists : List RacerStats) (finalists : List String) : List String :=
  ((nonFinalists.insertionSort
      (fun a b => a.avgExceptSlowest ≤ b.avgExceptSlowest)).take
    (12 - finalists.length)).map (fun r => r.racerId)

/-- The parts of the object returned by `processIntermediateData` that
the verified claims are about.  `racerStats` is the intermediate array
whose partition by class the JS returns as `resultsByClass`; it is
exposed directly here so that per-group properties can be stated.  The
fields `racers`, `allTimes`, `totalHeats` and `totalRaces` of the JS
return value are independent of every claim and are not embedded. -/
structure ProcessOutput where
  classes : List ClassEntry
  racerStats : List RacerStats
  resultsByClass : List (String × List RacerStats)
  finalists : List String
  wildcards : List String
  grandFinalsResults : List RacerStats
  sanityCheck : SanityResult
  mergedData : List CanonRecord
deriving Repr, DecidableEq

/-- `processIntermediateData` from `dataProcessor.js`: merge all data
sets through `applyClassMapping`, sanity-check, group into classes,
compute per-racer statistics, sort each class by `avgExceptSlowest`,
take the head of each non-finals class as finalist, and fill the finals
field with the fastest non-finalists (`Math.max(0, 12 - finalists.length)`
of them, which on naturals is truncated subtraction). -/
def processIntermediateData (sqrt : Rat → Rat)
    (intermediateDataSets : List (List RawRecord))
    (classMapping : List (String × String)) (year : Nat) : ProcessOutput :=
  let mergedData := intermediateDataSets.flatMap
    (fun rawRecords => applyClassMapping rawRecords classMapping year)
  let sanityCheck := performSanityCheck mergedData "Grand Finals"
  let classes := classesOf mergedData
  let raceResults := (mergedData.filter posFinish).map (toRaceResult classes)
  let racerStats := calculateRacerStatsFromMapped sqrt raceResults
  let resultsByClass := resultsByClassOf classes racerStats
  let finalists := finalistsOf classes resultsByClass
  let allDenResults := allDenResultsOf classes resultsByClass
  let nonFinalists := nonFinalistsOf allDenResults finalists
  let wildcards := wildcardsOf nonFinalists finalists
  let grandFinalsResults := (jsGetLast resultsByClass "grand finals").getD []
  { classes := classes, racerStats := racerStats, resultsByClass := resultsByClass
    finalists := finalists, wildcards := wildcards
    grandFinalsResults := grandFinalsResults
    sanityCheck := sanityCheck, mergedData := mergedData }

/-! ## Embedding of the `ResultsTable` component (`src/unnamed/part_002`) -/

/-- The racer key used for grand-finals-winner exclusion:
`` `${racer.firstName}|${racer.lastName}|${racer.carNumber}` ``. -/
def racerKeyOfStats (r : RacerStats) : String :=
  r.firstName ++ "|" ++ r.lastName ++ "|" ++ toString r.carNumber

/-- `isGrandFinalsWinner` from `ResultsTable`: membership of the racer
key in the excluded grand-finals-winner key list. -/
def isGrandFinalsWinner (excludedGrandFinalsWinners : List String)
    (racer : RacerStats) : Bool :=
  excludedGrandFinalsWinners.contains (racerKeyOfStats racer)

/-- The loop counting grand-finals winners at indices strictly before
`index` inside `getAdjustedPlace`. -/
def gfWinnersBefore (excluded : List String) (results : List RacerStats)
    (index : Nat) : Nat :=
  ((results.take index).filter (isGrandFinalsWinner excluded)).length

/-- `getAdjustedPlace` from `ResultsTable`: `null` (here `none`) for an
excluded racer, otherwise `index - gfWinnersBefore + 1`.  An
out-of-range index is `none` (the component only calls it in range). -/
def getAdjustedPlace (excluded : List String) (results : List RacerStats)
    (index : Nat) : Option Nat :=
  match results[index]? with
  | none => none
  | some racer =>
    if isGrandFinalsWinner excluded racer then none
    else some (index - gfWinnersBefore excluded results index + 1)

/-- The sequence of places actually assigned down the rendered table:
`getAdjustedPlace` at each index, skipping the excluded rows. -/
def assignedPlaces (excluded : List String) (results : List RacerStats) : List Nat :=
  (List.range results.length).filterMap (getAdjustedPlace excluded results)

/-! ## Derived notions used to state the claims -/

/-- The seven numeric statistics of a stats record, in the order
`avgTime, avgExceptSlowest, bestTime, worstTime, median, stdDev, raceCount`. -/
def numericStats (s : RacerStats) : Rat × Rat × Rat × Rat × Rat × Rat × Nat :=
  (s.avgTime, s.avgExceptSlowest, s.bestTime, s.worstTime, s.median, s.stdDev, s.raceCount)

/-- The numeric statistics recorded for group `k` in a stats array, if
the group is present. -/
def statsForGroup (stats : List RacerStats) (k : String) :
    Option (Rat × Rat × Rat × Rat × Rat × Rat × Nat) :=
  (stats.find? (fun s => statsGroupKey s = k)).map numericStats

/-- The positive finish times of the group a stats record belongs to:
the accumulated `times` of its group key, filtered to `t > 0` exactly as
inside `calculateRacerStatsFromMapped`. -/
def posTimes (raceResults : List RaceResult) (s : RacerStats) : List Rat :=
  (groupTimes raceResults (statsGroupKey s)).filter (fun t => decide (0 < t))

instance : Inhabited RaceResult :=
  ⟨{ racerId := "", firstName := "", lastName := "", carNumber := 0, carName := ""
     classId := 0, className := "", roundId := 0, heat := 0, lane := 0
     finishTime := 0, finishPlace := 0, completed := false, kidCarYear := "" }⟩

/-- The numeric statistics of a group as a function of its raw `times`
list alone (the descriptive fields of the representative record do not
influence them; see `numericStats_statsOfGroup`). -/
def numericStatsOfTimes (sqrt : Rat → Rat) (timesList : List Rat) :
    Rat × Rat × Rat × Rat × Rat × Rat × Nat :=
  numericStats (statsOfGroup sqrt default timesList)

/-- The grouping key of a canonical record, as it will appear after
conversion to a race result: `KidCarYear ++ "|" ++ Class`. -/
def canonGroupKey (r : CanonRecord) : String := r.KidCarYear ++ "|" ++ r.Class

/-- Modelled from the spec: finalist selection under a caller-selected
scoring key, `for every non-finals class ... the rank-1 racer (by
ascending selected scoring key) is a finalist`.  Stated for comparison
with the implementation, which takes no scoring-key parameter. -/
def finalistsBySpec (key : RacerStats → Rat) (classes : List ClassEntry)
    (racerStats : List RacerStats) : List String :=
  (denClassesOf classes).filterMap (fun cls =>
    (((racerStats.filter (fun r => r.className = cls.name)).insertionSort
        (fun a b => key a ≤ key b)).head?).map (fun r => r.racerId))

/-- Modelled from the spec: wildcard selection under a caller-selected
scoring key, `pool all non-finalist racers ..., sort ascending by
scoring key, and take the fastest max(0, W - finalistCount)` with
`W = 12`.  Stated for comparison with the implementation, which takes
no scoring-key parameter. -/
def wildcardsBySpec (key : RacerStats → Rat) (nonFinalists : List RacerStats)
    (finalists : List String) : List String :=
  ((nonFinalists.insertionSort (fun a b => key a ≤ key b)).take
    (12 - finalists.length)).map (fun r => r.racerId)

/-! ## Concrete inputs used by witnesses and counterexamples -/

/-- Race-result builder for concrete examples: one heat of racer
`kcy` in class `cls` with finish time `t`. -/
def mkRR (kcy cls : String) (t : Rat) : RaceResult :=
  { racerId := kcy, firstName := "F", lastName := "L", carNumber := 1, carName := ""
    classId := 1, className := cls, roundId := 1, heat := 1, lane := 1
    finishTime := t, finishPlace := 1, completed := true, kidCarYear := kcy }

/-- Stats-record builder for concrete examples (used for display rows). -/
def mkStats (f : String) (c : Nat) (avgES : Rat) : RacerStats :=
  { racerId := f, firstName := f, lastName := "L", carNumber := c, carName := ""
    classId := 1, className := "Wolf Den", kidCarYear := f
    avgTime := avgES, avgExceptSlowest := avgES, bestTime := avgES, worstTime := avgES
    median := avgES, stdDev := 0, raceCount := 1 }

/-- Raw-record builder for concrete examples. -/
def mkRaw (f : String) (car : Nat) (cls : String) (t : Rat) : RawRecord :=
  { Year := 2024, FirstName := f, LastName := "Z", CarNumber := car, CarName := none
    Class := cls, RoundID := 1, Heat := 1, Lane := 1, Completed := true
    FinishTime := some t, FinishPlace := 1 }

/-- Canonical-record builder for concrete examples. -/
def mkCanonEx (f l : String) (car : Nat) (cls : String) : CanonRecord :=
  { Year := 2024, FirstName := f, LastName := l, CarNumber := car, CarName := none
    Class := cls, OriginalClass := cls, KidCarYear := mkKidCarYear f l car 2024 cls
    RoundID := 1, Heat := 1, Lane := 1, Completed := true
    FinishTime := some 3, FinishPlace := 1 }

/-- Two heats of one racer, times 3 and 5 (for the C1 witness). -/
def exC1 : List RaceResult := [mkRR "a" "Wolf Den" 3, mkRR "a" "Wolf Den" 5]

/-- The stats record of the single group of `exC1`. -/
def exC1stat : RacerStats := statsOfGroup (fun q => q) (mkRR "a" "Wolf Den" 3) [3, 5]

/-- Four display rows, the first and third of which are excluded
grand-finals winners (for the C2 witness). -/
def exRows : List RacerStats := [mkStats "p" 1 3, mkStats "r" 2 4, mkStats "q" 3 5, mkStats "s" 4 6]

/-- The excluded keys of `exRows` (racers `p` and `q`). -/
def exExcl : List String := ["p|L|1", "q|L|3"]

/-- A raw record whose class label has no mapping entry. -/
def exUnmapped : RawRecord := mkRaw "u" 1 "Mystery" 3

/-- A raw record whose class label is mapped by `exMapC3`. -/
def exMapped : RawRecord := mkRaw "m" 2 "Known" 3

/-- A mapping that covers `Known` but not `Mystery`. -/
def exMapC3 : List (String × String) := [("Known", "Wolf Den")]

/-- Input for the C4 counterexample: in class `W`, racer `A` has times
3 and 3 (avgTime 3, drop-slowest 3) and racer `B` has times 1 and 6
(avgTime 7/2, drop-slowest 1).  Rank 1 by `avgTime` is `A`; rank 1 by
`avgExceptSlowest` is `B`. -/
def dsC4 : List (List RawRecord) :=
  [[mkRaw "A" 1 "W" 3, mkRaw "A" 1 "W" 3, mkRaw "B" 2 "W" 1, mkRaw "B" 2 "W" 6]]

/-- Mapping for the C4 counterexample. -/
def exMapC4 : List (String × String) := [("W", "Wolf Den")]

instance : Inhabited CanonRecord :=
  ⟨{ Year := 0, FirstName := "", LastName := "", CarNumber := 0, CarName := none
     Class := "", OriginalClass := "", KidCarYear := "", RoundID := 0, Heat := 0
     Lane := 0, Completed := false, FinishTime := none, FinishPlace := 0 }⟩

/-- The single canonical record produced from `[exUnmapped, exMapped]`
under `exMapC3` (the mapped row; the unmapped row is dropped). -/
def exC3rec : CanonRecord :=
  (applyClassMapping [exUnmapped, exMapped] exMapC3 2024).headI

/-- Input for the C5 counterexample: one den class with 13 racers.
Racer `f` (time 1) is the finalist; racers `a` through `k` (time 2
each) fill ten of the eleven wildcard slots; racers `x` (times 5, 5:
avgTime 5, drop-slowest 5) and `y` (times 49/10, 6: avgTime 109/20,
drop-slowest 49/10) compete for the last slot.  Rank by `avgTime`
prefers `x`; rank by `avgExceptSlowest` prefers `y`. -/
def dsC5 : List (List RawRecord) :=
  [[mkRaw "f" 0 "W" 1,
    mkRaw "a" 1 "W" 2, mkRaw "b" 2 "W" 2, mkRaw "c" 3 "W" 2, mkRaw "d" 4 "W" 2,
    mkRaw "e" 5 "W" 2, mkRaw "g" 6 "W" 2, mkRaw "h" 7 "W" 2, mkRaw "i" 8 "W" 2,
    mkRaw "j" 9 "W" 2, mkRaw "k" 10 "W" 2,
    mkRaw "x" 11 "W" 5, mkRaw "x" 11 "W" 5,
    mkRaw "y" 12 "W" (49/10), mkRaw "y" 12 "W" 6]]

/-- Canonical table with one racer in two dens and one racer only in
Grand Finals (for the C6 witness). -/
def exSanity : List CanonRecord :=
  [mkCanonEx "A" "B" 1 "Wolf Den", mkCanonEx "A" "B" 1 "Bear Den",
   mkCanonEx "C" "D" 2 "Grand Finals"]

/-- Pipeline input with a single zero-time heat (for the C7
counterexample): the racer registered but never finished. -/
def dsC7 : List (List RawRecord) := [[mkRaw "z" 9 "W" 0]]

/-- The group key of the zero-time racer of `dsC7` after mapping. -/
def keyC7 : String := canonGroupKey (mkCanonEx "z" "Z" 9 "Wolf Den")

/-- One race result with a non-positive recorded time, fed directly to
the aggregator (for the C7 witness). -/
def exC7 : List RaceResult := [mkRR "z" "Wolf Den" 0]

/-! # General helper lemmas -/

theorem mem_dedupKeysAux {α : Type} [DecidableEq α] (l : List α) :
    ∀ (seen : List α) (a : α), a ∈ dedupKeysAux seen l ↔ a ∈ l ∧ a ∉ seen := by
  induction l with
  | nil => simp [dedupKeysAux]
  | cons k ks ih =>
    intro seen a
    rw [dedupKeysAux]
    by_cases hks : k ∈ seen
    · rw [if_pos hks, ih seen a]
      simp only [List.mem_cons]
      constructor
      · rintro ⟨h1, h2⟩
        exact ⟨Or.inr h1, h2⟩
      · rintro ⟨h1 | h1, h2⟩
        · exact absurd hks (h1 ▸ h2)
        · exact ⟨h1, h2⟩
    · rw [if_neg hks]
      simp only [List.mem_cons, ih (k :: seen) a, List.mem_cons]
      by_cases hak : a = k
      · subst hak
        simp [hks]
      · simp [hak]

theorem mem_dedupKeys {α : Type} [DecidableEq α] (l : List α) (a : α) :
    a ∈ dedupKeys l ↔ a ∈ l := by
  rw [dedupKeys, mem_dedupKeysAux]
  simp

theorem nodup_dedupKeysAux {α : Type} [DecidableEq α] (l : List α) :
    ∀ seen : List α, (dedupKeysAux seen l).Nodup := by
  induction l with
  | nil => intro seen; simp [dedupKeysAux]
  | cons k ks ih =>
    intro seen
    rw [dedupKeysAux]
    by_cases hks : k ∈ seen
    · rw [if_pos hks]
      exact ih seen
    · rw [if_neg hks]
      refine List.Nodup.cons ?_ (ih (k :: seen))
      intro hmem
      rw [mem_dedupKeysAux] at hmem
      exact hmem.2 (List.mem_cons_self k seen)

theorem nodup_dedupKeys {α : Type} [DecidableEq α] (l : List α) :
    (dedupKeys l).Nodup :=
  nodup_dedupKeysAux l []

theorem charToLower_toNat_of_valid (n : Nat) (h : n.isValidChar) :
    (Char.ofNat n).toNat = n := by
  simp only [Char.ofNat, h, dite_true]
  simp [Char.ofNatAux, Char.toNat, UInt32.toNat]

theorem charToLower_idem (c : Char) : c.toLower.toLower = c.toLower := by
  unfold Char.toLower
  by_cases h : c.toNat ≥ 65 ∧ c.toNat ≤ 90
  · rw [if_pos h]
    have hv : (c.toNat + 32).isValidChar := by
      left
      omega
    rw [if_neg]
    rw [charToLower_toNat_of_valid _ hv]
    omega
  · rw [if_neg h, if_neg h]

theorem jsToLowerCase_idem (s : String) :
    jsToLowerCase (jsToLowerCase s) = jsToLowerCase s := by
  unfold jsToLowerCase
  simp only [List.map_map]
  congr 1
  apply List.map_congr_left
  intro c _
  exact charToLower_idem c

theorem natDigitsRevAux_ne_nil (fuel n : Nat) : natDigitsRevAux fuel n ≠ [] := by
  cases fuel with
  | zero => simp [natDigitsRevAux]
  | succ f =>
    rw [natDigitsRevAux]
    split <;> simp

theorem natDigitsRev_ne_nil (n : Nat) : natDigitsRev n ≠ [] :=
  natDigitsRevAux_ne_nil n n

theorem digitChar10_isDigit (m : Nat) :
    48 ≤ (digitChar10 m).toNat ∧ (digitChar10 m).toNat ≤ 57 := by
  have hv : (48 + m % 10).isValidChar := by
    left
    have := Nat.mod_lt m (show 0 < 10 by norm_num)
    omega
  rw [digitChar10, charToLower_toNat_of_valid _ hv]
  have := Nat.mod_lt m (show 0 < 10 by norm_num)
  omega

theorem mem_natDigitsRevAux_isDigit (fuel : Nat) :
    ∀ (n : Nat) (c : Char), c ∈ natDigitsRevAux fuel n →
      48 ≤ c.toNat ∧ c.toNat ≤ 57 := by
  induction fuel with
  | zero =>
    intro n c hc
    simp only [natDigitsRevAux, List.mem_singleton] at hc
    subst hc
    exact digitChar10_isDigit n
  | succ f ih =>
    intro n c hc
    rw [natDigitsRevAux] at hc
    split at hc
    · simp only [List.mem_singleton] at hc
      subst hc
      exact digitChar10_isDigit n
    · simp only [List.mem_cons] at hc
      rcases hc with hc | hc
      · subst hc
        exact digitChar10_isDigit n
      · exact ih _ _ hc

theorem natToString_ne_dash (n : Nat) : natToString n ≠ "-" := by
  intro h
  have hdata : (natToString n).data = ("-").data := by rw [h]
  have hd2 : (natDigitsRev n).reverse = ['-'] := hdata
  have hmem : ('-') ∈ natDigitsRev n := by
    rw [← List.mem_reverse, hd2]
    simp
  have := mem_natDigitsRevAux_isDigit n n _ hmem
  have h45 : ('-').toNat = 45 := by decide
  omega

theorem jsToFixed_ne_dash (q : Rat) (d : Nat) : jsToFixed q d ≠ "-" := by
  unfold jsToFixed
  by_cases hd : d = 0
  · rw [if_pos hd]
    exact natToString_ne_dash _
  · rw [if_neg hd]
    intro h
    have hlen : (natToString ((q * (10 : Rat) ^ d + 1 / 2).floor.toNat / 10 ^ d) ++ "." ++
        padZeros (natToString ((q * (10 : Rat) ^ d + 1 / 2).floor.toNat % 10 ^ d)) d).length =
        ("-").length := by rw [h]
    simp only [String.length_append] at hlen
    have h1 : 1 ≤ (natToString ((q * (10 : Rat) ^ d + 1 / 2).floor.toNat / 10 ^ d)).length := by
      show 1 ≤ (natDigitsRev _).reverse.length
      rw [List.length_reverse]
      cases hne : natDigitsRev ((q * (10 : Rat) ^ d + 1 / 2).floor.toNat / 10 ^ d) with
      | nil => exact absurd hne (natDigitsRev_ne_nil _)
      | cons a l => simp
    have h2 : ("." : String).length = 1 := by decide
    have h3 : ("-" : String).length = 1 := by decide
    omega

/-! # Claim theorems -/

/-- C9: for every input string, `guessStandardDenName` returns either a
member of the fixed seven-element standard den vocabulary or `none`,
never a class name outside that vocabulary; the match is
case-insensitive: the result depends only on the lowercased input, and
lowercasing the input beforehand does not change the result. -/
theorem guessStandardDenName_vocab_and_case_insensitive (s : String) :
    (guessStandardDenName s = none ∨
      ∃ d ∈ STANDARD_DEN_NAMES, guessStandardDenName s = some d) ∧
    (∀ t : String, jsToLowerCase t = jsToLowerCase s →
      guessStandardDenName t = guessStandardDenName s) ∧
    guessStandardDenName (jsToLowerCase s) = guessStandardDenName s := by
  refine ⟨?_, ?_, ?_⟩
  · simp only [guessStandardDenName]
    split_ifs <;> decide
  · intro t ht
    unfold guessStandardDenName
    rw [ht]
  · unfold guessStandardDenName
    rw [jsToLowerCase_idem]

/-- C10: `formatTime` returns the string `-` exactly when the time is
null, undefined, NaN, zero or negative, and otherwise returns the time
formatted to the requested number of decimal places; it is a total
function (the embedding is total by construction, so no exception is
possible). -/
theorem formatTime_spec (t : JSNum) (d : Nat) :
    (formatTime t d = "-" ↔
      t = JSNum.null ∨ t = JSNum.undefined ∨ t = JSNum.nan ∨
        ∃ q : Rat, t = JSNum.num q ∧ q ≤ 0) ∧
    (∀ q : Rat, t = JSNum.num q → 0 < q → formatTime t d = jsToFixed q d) := by
  constructor
  · cases t with
    | null => simp [formatTime]
    | undefined => simp [formatTime]
    | nan => simp [formatTime]
    | num q =>
      simp only [formatTime]
      split_ifs with h
      · simp only [true_iff]
        right; right; right
        exact ⟨q, rfl, by rcases h with h | h; exact le_of_eq h; exact h⟩
      · constructor
        · intro hcon
          exact absurd hcon (jsToFixed_ne_dash q d)
        · rintro (h | h | h | ⟨q', hq', hle⟩)
          · exact h.elim
          · exact h.elim
          · exact h.elim
          · cases hq'
            exact absurd (Or.inr hle) h
  · rintro q rfl hq
    simp only [formatTime]
    rw [if_neg]
    rintro (h | h)
    · exact absurd h (ne_of_gt hq)
    · exact absurd hq (not_lt_of_le h)

/-- C10 witness: at the concrete time 3 seconds with 3 decimals,
`formatTime` does not print a dash but the fixed-point rendering. -/
theorem formatTime_spec_witness :
    formatTime (JSNum.num 3) 3 = jsToFixed 3 3 ∧ formatTime (JSNum.num 3) 3 = "3.000" :=
  ⟨(formatTime_spec (JSNum.num 3) 3).2 3 rfl (by norm_num), by with_unfolding_all rfl⟩

/-! ## Lemmas about `statsOfGroup` -/

theorem statsGroupKey_statsOfGroup (sq : Rat → Rat) (rep : RaceResult) (l : List Rat) :
    statsGroupKey (statsOfGroup sq rep l) = groupKey rep := by
  simp only [statsOfGroup]
  split <;> rfl

theorem statsOfGroup_raceCount (sq : Rat → Rat) (rep : RaceResult) (l : List Rat) :
    (statsOfGroup sq rep l).raceCount = (l.filter (fun t => decide (0 < t))).length := by
  simp only [statsOfGroup]
  split
  · next h => exact h.symm
  · rfl

theorem statsOfGroup_avgES_of_lt (sq : Rat → Rat) (rep : RaceResult) (l : List Rat)
    (h : 1 < (l.filter (fun t => decide (0 < t))).length) :
    (statsOfGroup sq rep l).avgExceptSlowest =
      ((l.filter (fun t => decide (0 < t))).foldl (· + ·) 0 -
          jsMax (l.filter (fun t => decide (0 < t)))) /
        (((l.filter (fun t => decide (0 < t))).length : Rat) - 1) := by
  simp only [statsOfGroup]
  rw [if_neg (by omega)]
  dsimp only
  rw [if_pos h]

theorem statsOfGroup_avgES_of_le (sq : Rat → Rat) (rep : RaceResult) (l : List Rat)
    (h0 : (l.filter (fun t => decide (0 < t))).length ≠ 0)
    (h : ¬ 1 < (l.filter (fun t => decide (0 < t))).length) :
    (statsOfGroup sq rep l).avgExceptSlowest = (statsOfGroup sq rep l).avgTime := by
  simp only [statsOfGroup]
  rw [if_neg h0]
  dsimp only
  rw [if_neg h]

theorem statsOfGroup_avgTime (sq : Rat → Rat) (rep : RaceResult) (l : List Rat)
    (h0 : (l.filter (fun t => decide (0 < t))).length ≠ 0) :
    (statsOfGroup sq rep l).avgTime =
      (l.filter (fun t => decide (0 < t))).foldl (· + ·) 0 /
        ((l.filter (fun t => decide (0 < t))).length : Rat) := by
  simp only [statsOfGroup]
  rw [if_neg h0]

/-- Membership in `calculateRacerStatsFromMapped` output comes from a
first-occurrence group key and its first record. -/
theorem mem_calculateRacerStats (sq : Rat → Rat) (results : List RaceResult)
    (s : RacerStats) (hs : s ∈ calculateRacerStatsFromMapped sq results) :
    ∃ rep, results.find? (fun r => groupKey r = statsGroupKey s) = some rep ∧
      s = statsOfGroup sq rep (groupTimes results (statsGroupKey s)) := by
  obtain ⟨k, _hk, hf⟩ := List.mem_filterMap.mp hs
  obtain ⟨rep, hrep, hsg⟩ := Option.map_eq_some'.mp hf
  have hdec := List.find?_some hrep
  have hkey : groupKey rep = k := by simpa using hdec
  have hstat : statsGroupKey s = k := by
    rw [← hsg, statsGroupKey_statsOfGroup, hkey]
  rw [hstat]
  exact ⟨rep, hrep, hsg.symm⟩

/-- C1: for every group, `avgExceptSlowest` equals
`(sum(times) - max(times)) / (n - 1)` when `n > 1`, and for a group
with `raceCount = 1` it equals `avgTime`, which equals the single time. -/
theorem avgExceptSlowest_spec (sq : Rat → Rat) (results : List RaceResult)
    (s : RacerStats) (hs : s ∈ calculateRacerStatsFromMapped sq results) :
    ∃ T, T = posTimes results s ∧
      s.raceCount = T.length ∧
      (1 < T.length →
        s.avgExceptSlowest = (T.sum - jsMax T) / ((T.length : Rat) - 1)) ∧
      (s.raceCount = 1 →
        s.avgExceptSlowest = s.avgTime ∧ ∃ t, T = [t] ∧ s.avgTime = t) := by
  obtain ⟨rep, _hrep, hsg⟩ := mem_calculateRacerStats sq results s hs
  generalize hK : statsGroupKey s = K at hsg
  refine ⟨(groupTimes results K).filter (fun t => decide (0 < t)), ?_, ?_, ?_, ?_⟩
  · rw [posTimes, hK]
  · rw [hsg]
    exact statsOfGroup_raceCount sq rep _
  · intro hlt
    rw [hsg]
    rw [statsOfGroup_avgES_of_lt sq rep _ hlt, List.sum_eq_foldl]
  · intro hrc
    rw [hsg, statsOfGroup_raceCount] at hrc
    rw [hsg]
    constructor
    · exact statsOfGroup_avgES_of_le sq rep _ (by omega) (by omega)
    · obtain ⟨t, ht⟩ := List.length_eq_one.mp hrc
      refine ⟨t, ht, ?_⟩
      rw [statsOfGroup_avgTime sq rep _ (by omega), ht]
      norm_num

/-- C1 witness: the single group of `exC1` has positive times 3 and 5,
and its drop-slowest average satisfies the stated formula. -/
theorem avgExceptSlowest_spec_witness :
    exC1stat ∈ calculateRacerStatsFromMapped (fun q => q) exC1 ∧
    1 < (posTimes exC1 exC1stat).length ∧
    exC1stat.avgExceptSlowest =
      ((posTimes exC1 exC1stat).sum - jsMax (posTimes exC1 exC1stat)) /
        (((posTimes exC1 exC1stat).length : Rat) - 1) := by
  have hmem : exC1stat ∈ calculateRacerStatsFromMapped (fun q => q) exC1 := by
    with_unfolding_all decide
  have hlen : 1 < (posTimes exC1 exC1stat).length := by
    with_unfolding_all decide
  obtain ⟨T, hT, _hrc, hform, _⟩ := avgExceptSlowest_spec (fun q => q) exC1 exC1stat hmem
  subst hT
  exact ⟨hmem, hlen, hform hlen⟩

/-- C9 witness: an upper-case spelling is matched like its lower-case
form, and the guess lands in the standard vocabulary. -/
theorem guessStandardDenName_witness :
    guessStandardDenName "WOLVES" = guessStandardDenName "wolves" ∧
    guessStandardDenName "wolves" = some "Wolf Den" := by
  have h : jsToLowerCase "WOLVES" = jsToLowerCase "wolves" := by
    with_unfolding_all decide
  exact ⟨(guessStandardDenName_vocab_and_case_insensitive "wolves").2.1 "WOLVES" h,
    by with_unfolding_all decide⟩

/-! ## Lemmas about `getAdjustedPlace` -/

theorem gfWinnersBefore_cons_succ (excluded : List String) (x : RacerStats)
    (l : List RacerStats) (i : Nat) :
    gfWinnersBefore excluded (x :: l) (i + 1) =
      (if isGrandFinalsWinner excluded x then 1 else 0) + gfWinnersBefore excluded l i := by
  unfold gfWinnersBefore
  rw [List.take_succ_cons, List.filter_cons]
  split
  · simp [Nat.add_comm]
  · simp

theorem gfWinnersBefore_le (excluded : List String) (l : List RacerStats) (i : Nat) :
    gfWinnersBefore excluded l i ≤ i := by
  unfold gfWinnersBefore
  calc (List.filter (isGrandFinalsWinner excluded) (l.take i)).length
      ≤ (l.take i).length := List.length_filter_le _ _
    _ ≤ i := by rw [List.length_take]; exact Nat.min_le_left _ _

theorem getAdjustedPlace_cons_succ (excluded : List String) (x : RacerStats)
    (l : List RacerStats) (i : Nat) :
    getAdjustedPlace excluded (x :: l) (i + 1) =
      if isGrandFinalsWinner excluded x then getAdjustedPlace excluded l i
      else (getAdjustedPlace excluded l i).map (· + 1) := by
  unfold getAdjustedPlace
  rw [List.getElem?_cons_succ, gfWinnersBefore_cons_succ]
  cases hl : l[i]? with
  | none =>
    by_cases hx : isGrandFinalsWinner excluded x <;> simp [hx]
  | some r =>
    have hle : gfWinnersBefore excluded l i ≤ i := gfWinnersBefore_le excluded l i
    by_cases hx : isGrandFinalsWinner excluded x <;>
      by_cases hr : isGrandFinalsWinner excluded r <;>
        simp [hx, hr] <;> omega

theorem getAdjustedPlace_zero (excluded : List String) (x : RacerStats)
    (l : List RacerStats) :
    getAdjustedPlace excluded (x :: l) 0 =
      if isGrandFinalsWinner excluded x then none else some 1 := by
  unfold getAdjustedPlace gfWinnersBefore
  simp

theorem assignedPlaces_eq (excluded : List String) (results : List RacerStats) :
    assignedPlaces excluded results =
      List.range' 1 (results.filter (fun r => !isGrandFinalsWinner excluded r)).length := by
  induction results with
  | nil => simp [assignedPlaces]
  | cons x l ih =>
    rw [assignedPlaces, List.length_cons, List.range_succ_eq_map, List.filterMap_cons,
      getAdjustedPlace_zero, List.filterMap_map]
    have htail : ∀ i : Nat,
        (getAdjustedPlace excluded (x :: l) ∘ Nat.succ) i =
          if isGrandFinalsWinner excluded x then getAdjustedPlace excluded l i
          else (getAdjustedPlace excluded l i).map (· + 1) := by
      intro i
      rw [Function.comp_apply, show Nat.succ i = i + 1 from rfl,
        getAdjustedPlace_cons_succ]
    by_cases hx : isGrandFinalsWinner excluded x
    · rw [if_pos hx]
      have hfm : List.filterMap (getAdjustedPlace excluded (x :: l) ∘ Nat.succ)
          (List.range l.length) =
          List.filterMap (getAdjustedPlace excluded l) (List.range l.length) := by
        apply List.filterMap_congr
        intro i _
        rw [htail i, if_pos hx]
      rw [hfm]
      rw [List.filter_cons_of_neg (by simp [hx])]
      exact ih
    · rw [if_neg hx]
      have hfm : List.filterMap (getAdjustedPlace excluded (x :: l) ∘ Nat.succ)
          (List.range l.length) =
          (List.filterMap (getAdjustedPlace excluded l) (List.range l.length)).map (· + 1) := by
        rw [List.map_filterMap]
        apply List.filterMap_congr
        intro i _
        rw [htail i, if_neg hx]
      rw [hfm]
      rw [List.filter_cons_of_pos (by simp [hx])]
      show 1 :: (assignedPlaces excluded l).map (· + 1) = _
      rw [ih, List.length_cons, List.range'_succ]
      congr 1
      have : ((· + 1) : Nat → Nat) = (1 + ·) := by
        funext n
        omega
      rw [this, List.map_add_range']

/-- C2: the displayed place of the row at sorted index `i` is `none`
when the row is an excluded grand-finals winner and
`i - (number of excluded rows strictly before i) + 1` otherwise; as a
consequence the places actually assigned down the table are exactly the
contiguous sequence `1, 2, ..., k` where `k` counts the non-excluded
rows. -/
theorem getAdjustedPlace_correct (excluded : List String) (results : List RacerStats) :
    (∀ i (h : i < results.length),
      (isGrandFinalsWinner excluded (results.get ⟨i, h⟩) = true →
        getAdjustedPlace excluded results i = none) ∧
      (isGrandFinalsWinner excluded (results.get ⟨i, h⟩) = false →
        getAdjustedPlace excluded results i =
          some (i - gfWinnersBefore excluded results i + 1))) ∧
    assignedPlaces excluded results =
      List.range' 1 (results.filter (fun r => !isGrandFinalsWinner excluded r)).length := by
  constructor
  · intro i h
    unfold getAdjustedPlace
    rw [List.getElem?_eq_getElem h]
    constructor
    · intro hx
      simp only [List.get_eq_getElem] at hx
      simp [hx]
    · intro hx
      simp only [List.get_eq_getElem] at hx
      simp [hx]
  · exact assignedPlaces_eq excluded results

/-- C2 witness: on the concrete four-row table `exRows` with excluded
keys `exExcl`, the excluded first row gets no place, the second row
gets place 1, and the assigned places are exactly `[1, 2]`. -/
theorem getAdjustedPlace_correct_witness :
    getAdjustedPlace exExcl exRows 0 = none ∧
    getAdjustedPlace exExcl exRows 1 = some 1 ∧
    assignedPlaces exExcl exRows = [1, 2] := by
  obtain ⟨hpt, hcontig⟩ := getAdjustedPlace_correct exExcl exRows
  have h0 : (0 : Nat) < exRows.length := by with_unfolding_all decide
  have h1 : (1 : Nat) < exRows.length := by with_unfolding_all decide
  have e0 : isGrandFinalsWinner exExcl (exRows.get ⟨0, h0⟩) = true := by
    with_unfolding_all rfl
  have e1 : isGrandFinalsWinner exExcl (exRows.get ⟨1, h1⟩) = false := by
    with_unfolding_all rfl
  refine ⟨(hpt 0 h0).1 e0, ?_, ?_⟩
  · have hplace := (hpt 1 h1).2 e1
    have hgf : gfWinnersBefore exExcl exRows 1 = 1 := by with_unfolding_all decide
    rw [hplace, hgf]
  · rw [hcontig]
    have hk : (exRows.filter (fun r => !isGrandFinalsWinner exExcl r)).length = 2 := by
      with_unfolding_all decide
    rw [hk]
    with_unfolding_all rfl

/-! ## C3: behaviour of the merge step on unmapped labels -/

/-- C3 counterexample: with an input whose raw label `Mystery` has no
mapping entry, the current merge step does not abort and reports no
error: it returns normally with the unmapped row silently dropped
(first conjunct), and when other rows are mapped it produces a partial
canonical table missing the unmapped row (second conjunct); the legacy
variant instead passes the unmapped raw label through as the class name
(third conjunct). -/
theorem applyClassMapping_unmapped_counterexample :
    applyClassMapping [exUnmapped] [] 2024 = [] ∧
    (applyClassMapping [exUnmapped, exMapped] exMapC3 2024).map
      (fun rec => rec.OriginalClass) = ["Known"] ∧
    (applyClassMappingLegacy [exUnmapped] [] 2024).map (fun rec => rec.Class) =
      ["Mystery"] := by
  refine ⟨?_, ?_, ?_⟩ <;> with_unfolding_all rfl

/-- C3 amended: the merge step does not abort on an unmapped label;
instead every row whose raw label lacks a usable mapping entry is
silently dropped, and every row of the produced canonical table carries
a class taken from an explicit non-empty, non-skip mapping entry for
its original label (so no unmapped raw label is ever passed through as
a class name, and no dropped label ever reaches the table). -/
theorem applyClassMapping_amended (records : List RawRecord)
    (m : List (String × String)) (year : Nat) :
    (∀ rec ∈ applyClassMapping records m year,
      ∃ s, lookupMapping m rec.OriginalClass = some s ∧ s ≠ "" ∧ s ≠ SKIP_CLASS ∧
        rec.Class = s) ∧
    (∀ r ∈ records, hasUsableMapping m r.Class = false →
      ∀ rec ∈ applyClassMapping records m year, rec.OriginalClass ≠ r.Class) := by
  have main : ∀ rec ∈ applyClassMapping records m year,
      ∃ s, lookupMapping m rec.OriginalClass = some s ∧ s ≠ "" ∧ s ≠ SKIP_CLASS ∧
        rec.Class = s := by
    intro rec hrec
    simp only [applyClassMapping, List.mem_map, List.mem_filter] at hrec
    obtain ⟨r, ⟨_hr_mem, hr_ok⟩, hrec_eq⟩ := hrec
    subst hrec_eq
    unfold hasUsableMapping at hr_ok
    cases hlu : lookupMapping m r.Class with
    | none => rw [hlu] at hr_ok; exact absurd hr_ok (by simp)
    | some s0 =>
      rw [hlu] at hr_ok
      have hne : s0 ≠ "" ∧ s0 ≠ SKIP_CLASS := by
        simpa using hr_ok
      refine ⟨s0, by rfl, hne.1, hne.2, ?_⟩
      show jsOrString (some s0) r.Class = s0
      simp only [jsOrString]
      rw [if_neg hne.1]
  refine ⟨main, ?_⟩
  intro r _hr hbad rec hrec heq
  obtain ⟨s0, hlu, hne0, hns0, _⟩ := main rec hrec
  rw [heq] at hlu
  unfold hasUsableMapping at hbad
  rw [hlu] at hbad
  simp [hne0, hns0] at hbad

set_option maxRecDepth 100000 in
/-- C3 amended witness: in the concrete two-row input, the mapped row
is in the canonical table and no row in the table originates from the
unmapped label. -/
theorem applyClassMapping_amended_witness :
    exC3rec ∈ applyClassMapping [exUnmapped, exMapped] exMapC3 2024 ∧
    exC3rec.OriginalClass ≠ exUnmapped.Class := by
  have hmem : exC3rec ∈ applyClassMapping [exUnmapped, exMapped] exMapC3 2024 := by
    with_unfolding_all decide
  have hbad : hasUsableMapping exMapC3 exUnmapped.Class = false := by
    with_unfolding_all decide
  have hu : exUnmapped ∈ [exUnmapped, exMapped] := by with_unfolding_all decide
  exact ⟨hmem,
    (applyClassMapping_amended [exUnmapped, exMapped] exMapC3 2024).2
      exUnmapped hu hbad exC3rec hmem⟩

/-! ## C6: the sanity check -/

theorem one_lt_length_of_mem_ne {α : Type} {l : List α} {a b : α}
    (ha : a ∈ l) (hb : b ∈ l) (hab : a ≠ b) : 1 < l.length := by
  cases l with
  | nil => cases ha
  | cons x t =>
    cases t with
    | nil =>
      rw [List.mem_singleton] at ha hb
      exact absurd (ha.trans hb.symm) hab
    | cons y u =>
      simp only [List.length_cons]
      omega

theorem participationOf_mem (merged : List CanonRecord) (gf k : String)
    (hk : ∃ r ∈ merged, getRacerKey r = k) :
    ∃ e : ParticipationEntry,
      (k, e) ∈ participationOf merged gf ∧
      e.dens = (dedupKeys ((merged.filter (fun r => getRacerKey r = k)).map
        (fun r => r.Class))).filter (fun cls => cls ≠ gf) := by
  obtain ⟨r, hr, hkey⟩ := hk
  have hkmem : k ∈ dedupKeys (merged.map getRacerKey) := by
    rw [mem_dedupKeys]
    exact List.mem_map.mpr ⟨r, hr, hkey⟩
  have hfil : r ∈ merged.filter (fun r => getRacerKey r = k) :=
    List.mem_filter.mpr ⟨hr, by simp [hkey]⟩
  obtain ⟨sample, hsample⟩ :
      ∃ sample, (merged.filter (fun r => getRacerKey r = k)).head? = some sample := by
    cases hcase : (merged.filter (fun r => getRacerKey r = k)).head? with
    | none =>
      rw [List.head?_eq_none_iff] at hcase
      rw [hcase] at hfil
      cases hfil
    | some sample => exact ⟨sample, rfl⟩
  refine ⟨⟨(dedupKeys ((merged.filter (fun r => getRacerKey r = k)).map
      (fun r => r.Class))).filter (fun cls => cls ≠ gf),
      displayName sample⟩, ?_, rfl⟩
  apply List.mem_filterMap.mpr
  refine ⟨k, hkmem, ?_⟩
  simp only [hsample, Option.map_some']

theorem mem_dens_iff (merged : List CanonRecord) (gf k c : String) :
    (c ∈ (dedupKeys ((merged.filter (fun r => getRacerKey r = k)).map
        (fun r => r.Class))).filter (fun cls => cls ≠ gf)) ↔
      (c ≠ gf ∧ ∃ r ∈ merged, getRacerKey r = k ∧ r.Class = c) := by
  rw [List.mem_filter, mem_dedupKeys]
  simp only [List.mem_map, List.mem_filter, decide_eq_true_eq]
  constructor
  · rintro ⟨⟨r, ⟨hr, hrk⟩, hrc⟩, hcgf⟩
    exact ⟨hcgf, r, hr, hrk, hrc⟩
  · rintro ⟨hcgf, r, hr, hrk, hrc⟩
    exact ⟨⟨r, ⟨hr, hrk⟩, hrc⟩, hcgf⟩

/-- C6: the sanity check emits an error-severity finding whenever some
racer key appears under more than one distinct non-finals class, emits
a warning-severity finding when some racer key appears only in the
finals class, and its is-valid boolean is true exactly when no
error-severity finding exists. -/
theorem performSanityCheck_spec (merged : List CanonRecord) (gf : String) :
    ((∃ k c₁ c₂, c₁ ≠ c₂ ∧ c₁ ≠ gf ∧ c₂ ≠ gf ∧
        (∃ r ∈ merged, getRacerKey r = k ∧ r.Class = c₁) ∧
        (∃ r ∈ merged, getRacerKey r = k ∧ r.Class = c₂)) →
      ∃ w ∈ (performSanityCheck merged gf).warnings, w.severity = "error") ∧
    ((∃ k, (∃ r ∈ merged, getRacerKey r = k) ∧
        (∀ r ∈ merged, getRacerKey r = k → r.Class = gf)) →
      ∃ w ∈ (performSanityCheck merged gf).warnings, w.severity = "warning") ∧
    ((performSanityCheck merged gf).isValid = true ↔
      ∀ w ∈ (performSanityCheck merged gf).warnings, w.severity ≠ "error") := by
  have hwarnings : (performSanityCheck merged gf).warnings =
      sanityWarningsOf (multiDenOf (participationOf merged gf))
        (noDenOf merged gf (participationOf merged gf)) := rfl
  refine ⟨?_, ?_, ?_⟩
  · rintro ⟨k, c₁, c₂, hne, h1gf, h2gf, h1, h2⟩
    obtain ⟨r₁, hr₁, hk₁, hc₁⟩ := h1
    obtain ⟨e, hmem, hdens⟩ := participationOf_mem merged gf k ⟨r₁, hr₁, hk₁⟩
    have hc1 : c₁ ∈ e.dens := by
      rw [hdens, mem_dens_iff]
      exact ⟨h1gf, r₁, hr₁, hk₁, hc₁⟩
    have hc2 : c₂ ∈ e.dens := by
      rw [hdens, mem_dens_iff]
      exact ⟨h2gf, h2⟩
    have hlt : 1 < e.dens.length := one_lt_length_of_mem_ne hc1 hc2 hne
    have hdet : ({ racerKey := k, name := e.name, dens := e.dens } : DetailEntry) ∈
        multiDenOf (participationOf merged gf) := by
      apply List.mem_filterMap.mpr
      exact ⟨(k, e), hmem, by rw [if_pos hlt]⟩
    have hpos : 0 < (multiDenOf (participationOf merged gf)).length :=
      List.length_pos.mpr (List.ne_nil_of_mem hdet)
    rw [hwarnings, sanityWarningsOf]
    refine ⟨⟨"multi-den", "error",
      toString (multiDenOf (participationOf merged gf)).length ++
        " racer(s) appear in multiple den races",
      multiDenOf (participationOf merged gf)⟩, ?_, rfl⟩
    apply List.mem_append_left
    rw [if_pos hpos]
    exact List.mem_singleton.mpr rfl
  · rintro ⟨k, hex, hall⟩
    obtain ⟨e, hmem, hdens⟩ := participationOf_mem merged gf k hex
    have hdens0 : e.dens = [] := by
      rw [hdens]
      rw [List.filter_eq_nil_iff]
      intro c hc
      rw [mem_dedupKeys] at hc
      obtain ⟨r, hrf, hrc⟩ := List.mem_map.mp hc
      obtain ⟨hr, hrkb⟩ := List.mem_filter.mp hrf
      have hrk : getRacerKey r = k := by simpa using hrkb
      have := hall r hr hrk
      simp [← hrc, this]
    obtain ⟨r₀, hr₀, hk₀⟩ := hex
    have hany : merged.any (fun r =>
        decide (getRacerKey r = k) && decide (r.Class = gf)) = true := by
      rw [List.any_eq_true]
      exact ⟨r₀, hr₀, by simp [hk₀, hall r₀ hr₀ hk₀]⟩
    have hdet : ({ racerKey := k, name := e.name, dens := [] } : DetailEntry) ∈
        noDenOf merged gf (participationOf merged gf) := by
      apply List.mem_filterMap.mpr
      refine ⟨(k, e), hmem, ?_⟩
      simp [hdens0, hany]
    have hpos : 0 < (noDenOf merged gf (participationOf merged gf)).length :=
      List.length_pos.mpr (List.ne_nil_of_mem hdet)
    rw [hwarnings, sanityWarningsOf]
    refine ⟨⟨"no-den", "warning",
      toString (noDenOf merged gf (participationOf merged gf)).length ++
        " racer(s) appear only in Grand Finals without a den race",
      noDenOf merged gf (participationOf merged gf)⟩, ?_, rfl⟩
    apply List.mem_append_right
    rw [if_pos hpos]
    exact List.mem_singleton.mpr rfl
  · show ((((performSanityCheck merged gf).warnings).filter
        (fun w => w.severity == "error")).length == 0) = true ↔ _
    rw [Nat.beq_eq_true_eq, List.length_eq_zero, List.filter_eq_nil_iff]
    constructor
    · intro h w hw hsev
      exact h w hw (by simp [hsev])
    · intro h w hw hcon
      exact h w hw (by simpa using hcon)

set_option maxRecDepth 100000 in
/-- C6 witness: on the concrete table `exSanity` (racer `A B` in two
dens, racer `C D` only in Grand Finals) the check reports an error
finding and a warning finding and is not valid. -/
theorem performSanityCheck_spec_witness :
    (∃ w ∈ (performSanityCheck exSanity "Grand Finals").warnings, w.severity = "error") ∧
    (∃ w ∈ (performSanityCheck exSanity "Grand Finals").warnings, w.severity = "warning") ∧
    (performSanityCheck exSanity "Grand Finals").isValid = false := by
  obtain ⟨herr, hwarn, hiff⟩ := performSanityCheck_spec exSanity "Grand Finals"
  have h1 : ∃ k c₁ c₂, c₁ ≠ c₂ ∧ c₁ ≠ "Grand Finals" ∧ c₂ ≠ "Grand Finals" ∧
      (∃ r ∈ exSanity, getRacerKey r = k ∧ r.Class = c₁) ∧
      (∃ r ∈ exSanity, getRacerKey r = k ∧ r.Class = c₂) := by
    refine ⟨"A|B|1", "Wolf Den", "Bear Den", by decide, by decide, by decide,
      ⟨mkCanonEx "A" "B" 1 "Wolf Den", ?_, ?_, by with_unfolding_all rfl⟩,
      ⟨mkCanonEx "A" "B" 1 "Bear Den", ?_, ?_, by with_unfolding_all rfl⟩⟩
    · with_unfolding_all decide
    · with_unfolding_all rfl
    · with_unfolding_all decide
    · with_unfolding_all rfl
  have h2 : ∃ k, (∃ r ∈ exSanity, getRacerKey r = k) ∧
      (∀ r ∈ exSanity, getRacerKey r = k → r.Class = "Grand Finals") := by
    refine ⟨"C|D|2", ⟨mkCanonEx "C" "D" 2 "Grand Finals", ?_, ?_⟩, ?_⟩
    · with_unfolding_all decide
    · with_unfolding_all rfl
    · with_unfolding_all decide
  have herr' := herr h1
  refine ⟨herr', hwarn h2, ?_⟩
  cases hval : (performSanityCheck exSanity "Grand Finals").isValid with
  | false => rfl
  | true =>
    obtain ⟨w, hw, hsev⟩ := herr'
    exact absurd hsev ((hiff.mp hval) w hw)

/-! ## C7: groups with zero positive times -/

set_option maxRecDepth 400000 in
/-- C7 counterexample: feeding the pipeline one record with finish time
0 (racer registered, never finished), the canonical table contains the
group `keyC7` and that group has no positive time, yet the pipeline
produces no stats record at all for it: `racerStats` is empty and the
Wolf Den result list is empty, instead of containing a zeroed record
with `raceCount = 0`. -/
theorem zero_time_group_omitted_counterexample :
    (processIntermediateData (fun q => q) dsC7 exMapC4 2024).mergedData.map canonGroupKey
      = [keyC7] ∧
    (processIntermediateData (fun q => q) dsC7 exMapC4 2024).mergedData.filter posFinish
      = [] ∧
    (processIntermediateData (fun q => q) dsC7 exMapC4 2024).racerStats = [] ∧
    (processIntermediateData (fun q => q) dsC7 exMapC4 2024).resultsByClass =
      [("wolf den", [])] := by
  refine ⟨?_, ?_, ?_, ?_⟩ <;> with_unfolding_all rfl

theorem statsOfGroup_zeroFields (sq : Rat → Rat) (rep : RaceResult) (l : List Rat)
    (h : (l.filter (fun t => decide (0 < t))).length = 0) :
    (statsOfGroup sq rep l).avgTime = 0 ∧ (statsOfGroup sq rep l).avgExceptSlowest = 0 ∧
    (statsOfGroup sq rep l).bestTime = 0 ∧ (statsOfGroup sq rep l).worstTime = 0 ∧
    (statsOfGroup sq rep l).median = 0 ∧ (statsOfGroup sq rep l).stdDev = 0 ∧
    (statsOfGroup sq rep l).raceCount = 0 := by
  simp only [statsOfGroup]
  rw [if_pos h]
  exact ⟨rfl, rfl, rfl, rfl, rfl, rfl, rfl⟩

/-- C7 amended: the aggregator `calculateRacerStatsFromMapped` itself
does produce a stats record with all numeric fields zero and
`raceCount = 0` for every group whose record set contains zero positive
finish times; but the pipeline `processIntermediateData` filters rows
to positive finish times before grouping, so at the pipeline level such
groups are omitted from the output (see the counterexample). -/
theorem zeroTimesGroup_zeroStats (sq : Rat → Rat) (results : List RaceResult)
    (k : String) (hk : k ∈ results.map groupKey)
    (hz : ((groupTimes results k).filter (fun t => decide (0 < t))).length = 0) :
    ∃ s ∈ calculateRacerStatsFromMapped sq results,
      statsGroupKey s = k ∧ s.avgTime = 0 ∧ s.avgExceptSlowest = 0 ∧
      s.bestTime = 0 ∧ s.worstTime = 0 ∧ s.median = 0 ∧ s.stdDev = 0 ∧
      s.raceCount = 0 := by
  have hk' : k ∈ dedupKeys (results.map groupKey) := (mem_dedupKeys _ _).mpr hk
  obtain ⟨r, hrmem, hrk⟩ := List.mem_map.mp hk
  have hfind : (results.find? (fun r => groupKey r = k)).isSome := by
    rw [List.find?_isSome]
    exact ⟨r, hrmem, by simp [hrk]⟩
  obtain ⟨rep, hrep⟩ := Option.isSome_iff_exists.mp hfind
  have hkrep : groupKey rep = k := by simpa using List.find?_some hrep
  refine ⟨statsOfGroup sq rep (groupTimes results k), ?_, ?_, ?_⟩
  · apply List.mem_filterMap.mpr
    refine ⟨k, hk', ?_⟩
    rw [hrep]
    rfl
  · rw [statsGroupKey_statsOfGroup]
    exact hkrep
  · exact statsOfGroup_zeroFields sq rep _ hz

/-- C7 amended witness: one record with time 0 fed directly to the
aggregator yields a zeroed stats record for its group. -/
theorem zeroTimesGroup_zeroStats_witness :
    ∃ s ∈ calculateRacerStatsFromMapped (fun q => q) exC7,
      statsGroupKey s = "z|Wolf Den" ∧ s.raceCount = 0 ∧ s.avgTime = 0 := by
  have hk : "z|Wolf Den" ∈ exC7.map groupKey := by with_unfolding_all decide
  have hz : ((groupTimes exC7 "z|Wolf Den").filter (fun t => decide (0 < t))).length = 0 := by
    with_unfolding_all decide
  obtain ⟨s, hs, hkey, h1, _, _, _, _, _, h8⟩ :=
    zeroTimesGroup_zeroStats (fun q => q) exC7 "z|Wolf Den" hk hz
  exact ⟨s, hs, hkey, h8, h1⟩

/-! ## C4: finalist selection -/

instance : IsTotal RacerStats (fun a b => a.avgExceptSlowest ≤ b.avgExceptSlowest) :=
  ⟨fun a b => le_total a.avgExceptSlowest b.avgExceptSlowest⟩

instance : IsTrans RacerStats (fun a b => a.avgExceptSlowest ≤ b.avgExceptSlowest) :=
  ⟨fun _ _ _ hab hbc => le_trans hab hbc⟩

set_option maxRecDepth 1000000 in
/-- C4 counterexample: on `dsC4` (racer `A` with times 3, 3 and racer
`B` with times 1, 6 in one den class), the finalist computed by
`processIntermediateData` is not the rank-1 racer by ascending
`avgTime` (which would be `A`, avgTime 3 against 7/2), because the
implementation takes no scoring-key parameter: it always selects by
`avgExceptSlowest` (rank 1 is `B`, drop-slowest 1 against 3). -/
theorem finalists_ignore_selected_key_counterexample :
    (processIntermediateData (fun q => q) dsC4 exMapC4 2024).finalists ≠
      finalistsBySpec (fun s => s.avgTime)
        (processIntermediateData (fun q => q) dsC4 exMapC4 2024).classes
        (processIntermediateData (fun q => q) dsC4 exMapC4 2024).racerStats ∧
    (processIntermediateData (fun q => q) dsC4 exMapC4 2024).finalists =
      finalistsBySpec (fun s => s.avgExceptSlowest)
        (processIntermediateData (fun q => q) dsC4 exMapC4 2024).classes
        (processIntermediateData (fun q => q) dsC4 exMapC4 2024).racerStats := by
  constructor
  · with_unfolding_all decide
  · with_unfolding_all rfl

theorem find?_map_of_nodup {α β : Type} (g : α → String) (f : α → β) (l : List α)
    (hnd : (l.map g).Nodup) (a : α) (ha : a ∈ l) :
    (l.map (fun x => (g x, f x))).find? (fun p => p.1 = g a) = some (g a, f a) := by
  induction l with
  | nil => cases ha
  | cons x t ih =>
    rw [List.map_cons] at hnd ⊢
    have hnd' := hnd
    rw [List.nodup_cons] at hnd'
    by_cases hx : g x = g a
    · have hax : a = x := by
        rcases List.mem_cons.mp ha with h | h
        · exact h
        · exact absurd (hx ▸ List.mem_map_of_mem g h) hnd'.1
      subst hax
      rw [List.find?_cons_of_pos _ (by simp)]
    · have hat : a ∈ t := by
        rcases List.mem_cons.mp ha with h | h
        · exact absurd (congrArg g h).symm hx
        · exact h
      rw [List.find?_cons_of_neg _ (by simp [hx])]
      exact ih hnd'.2 hat

theorem jsGetLast_map_of_nodup {α β : Type} (g : α → String) (f : α → β) (l : List α)
    (hnd : (l.map g).Nodup) (a : α) (ha : a ∈ l) :
    jsGetLast (l.map (fun x => (g x, f x))) (g a) = some (f a) := by
  rw [jsGetLast, ← List.map_reverse]
  rw [find?_map_of_nodup g f l.reverse
    (by rw [List.map_reverse]; exact List.nodup_reverse.mpr hnd)
    a (List.mem_reverse.mpr ha)]
  rfl

theorem jsGetLast_resultsByClass (classes : List ClassEntry) (stats : List RacerStats)
    (hnd : (classes.map (fun c => jsToLowerCase c.name)).Nodup)
    (cls : ClassEntry) (hcls : cls ∈ classes) :
    jsGetLast (resultsByClassOf classes stats) (jsToLowerCase cls.name) =
      some (sortStats (stats.filter (fun r => r.className = cls.name))) := by
  have h := jsGetLast_map_of_nodup (fun c : ClassEntry => jsToLowerCase c.name)
    (fun c : ClassEntry => sortStats (stats.filter (fun r => r.className = c.name)))
    classes hnd cls hcls
  exact h

theorem finalistsOf_eq (classes : List ClassEntry) (stats : List RacerStats)
    (hnd : (classes.map (fun c => jsToLowerCase c.name)).Nodup) :
    finalistsOf classes (resultsByClassOf classes stats) =
      (denClassesOf classes).filterMap (fun cls =>
        ((sortStats (stats.filter (fun r => r.className = cls.name))).head?).map
          (fun r => r.racerId)) := by
  unfold finalistsOf
  apply List.filterMap_congr
  intro cls hcls
  have hcls' : cls ∈ classes := (List.mem_filter.mp hcls).1
  rw [jsGetLast_resultsByClass classes stats hnd cls hcls']

theorem sortStats_head_min (l : List RacerStats) (hd : RacerStats)
    (hhd : (sortStats l).head? = some hd) :
    ∀ s ∈ l, hd.avgExceptSlowest ≤ s.avgExceptSlowest := by
  intro s hs
  have hperm : List.Perm (sortStats l) l := List.perm_insertionSort _ l
  have hsorted : List.Sorted
      (fun a b : RacerStats => a.avgExceptSlowest ≤ b.avgExceptSlowest) (sortStats l) :=
    List.sorted_insertionSort _ l
  have hsl : s ∈ sortStats l := hperm.mem_iff.mpr hs
  cases hcase : sortStats l with
  | nil => rw [hcase] at hsl; cases hsl
  | cons x t =>
    rw [hcase] at hhd hsl hsorted
    have hx : x = hd := by
      simpa using hhd
    subst hx
    rcases List.mem_cons.mp hsl with h | h
    · rw [h]
    · exact List.rel_of_sorted_cons hsorted s h

theorem length_filterMap_eq_countP {α β : Type} (f : α → Option β) (l : List α) :
    (l.filterMap f).length = l.countP (fun a => (f a).isSome) := by
  induction l with
  | nil => rfl
  | cons x t ih =>
    rw [List.filterMap_cons, List.countP_cons]
    cases hfx : f x with
    | none => simpa [hfx] using ih
    | some b => simpa [hfx] using ih

/-- C4 amended: `processIntermediateData` takes no scoring-key
parameter; finalists are always the rank-1 racer by ascending
`avgExceptSlowest`, whatever key the caller later selects for display.
Provided the lowercased class names are distinct (always true when
class names come from the standard vocabulary), the finalist list is
the head of each non-empty den class list sorted by `avgExceptSlowest`;
that head is minimal in its class by `avgExceptSlowest`; and there is
exactly one finalist per den class with at least one finisher and none
for a class with zero finishers. -/
theorem finalists_amended (sq : Rat → Rat) (ds : List (List RawRecord))
    (m : List (String × String)) (year : Nat)
    (hnd : (((processIntermediateData sq ds m year).classes).map
      (fun c => jsToLowerCase c.name)).Nodup) :
    (processIntermediateData sq ds m year).finalists =
      finalistsBySpec (fun s => s.avgExceptSlowest)
        (processIntermediateData sq ds m year).classes
        (processIntermediateData sq ds m year).racerStats ∧
    (∀ cls ∈ denClassesOf (processIntermediateData sq ds m year).classes, ∀ hd,
      (sortStats ((processIntermediateData sq ds m year).racerStats.filter
        (fun r => r.className = cls.name))).head? = some hd →
      ∀ s ∈ (processIntermediateData sq ds m year).racerStats, s.className = cls.name →
        hd.avgExceptSlowest ≤ s.avgExceptSlowest) ∧
    (processIntermediateData sq ds m year).finalists.length =
      ((denClassesOf (processIntermediateData sq ds m year).classes).filter
        (fun cls => !((processIntermediateData sq ds m year).racerStats.filter
          (fun r => r.className = cls.name)).isEmpty)).length := by
  have hfin : (processIntermediateData sq ds m year).finalists =
      finalistsOf (processIntermediateData sq ds m year).classes
        (resultsByClassOf (processIntermediateData sq ds m year).classes
          (processIntermediateData sq ds m year).racerStats) := rfl
  refine ⟨?_, ?_, ?_⟩
  · rw [hfin, finalistsOf_eq _ _ hnd]
    rfl
  · intro cls _hcls hd hhd s hs hscls
    exact sortStats_head_min _ hd hhd s (List.mem_filter.mpr ⟨hs, by simp [hscls]⟩)
  · rw [hfin, finalistsOf_eq _ _ hnd, length_filterMap_eq_countP, List.countP_eq_length_filter]
    congr 1
    apply List.filter_congr
    intro cls _
    cases hcase : (sortStats ((processIntermediateData sq ds m year).racerStats.filter
        (fun r => r.className = cls.name))).head? with
    | none =>
      rw [List.head?_eq_none_iff] at hcase
      have : ((processIntermediateData sq ds m year).racerStats.filter
          (fun r => r.className = cls.name)) = [] := by
        have hperm : List.Perm (sortStats ((processIntermediateData sq ds m year).racerStats.filter
            (fun r => r.className = cls.name)))
            ((processIntermediateData sq ds m year).racerStats.filter
            (fun r => r.className = cls.name)) := List.perm_insertionSort _ _
        rw [hcase] at hperm
        exact (List.Perm.nil_eq hperm).symm
      simp [this, hcase]
    | some hd =>
      have hne : ((processIntermediateData sq ds m year).racerStats.filter
          (fun r => r.className = cls.name)) ≠ [] := by
        intro hnil
        rw [hnil] at hcase
        simp [sortStats, List.insertionSort] at hcase
      cases hfe : ((processIntermediateData sq ds m year).racerStats.filter
          (fun r => r.className = cls.name)).isEmpty with
      | false => simp [hcase, hfe]
      | true => exact absurd (by simpa using hfe) hne

set_option maxRecDepth 1000000 in
/-- C4 amended witness: on `dsC4` the finalist list matches the rank-1
by `avgExceptSlowest` and has exactly one entry for the one non-empty
den class. -/
theorem finalists_amended_witness :
    (processIntermediateData (fun q => q) dsC4 exMapC4 2024).finalists =
      finalistsBySpec (fun s => s.avgExceptSlowest)
        (processIntermediateData (fun q => q) dsC4 exMapC4 2024).classes
        (processIntermediateData (fun q => q) dsC4 exMapC4 2024).racerStats ∧
    (processIntermediateData (fun q => q) dsC4 exMapC4 2024).finalists.length = 1 := by
  have hnd : (((processIntermediateData (fun q => q) dsC4 exMapC4 2024).classes).map
      (fun c => jsToLowerCase c.name)).Nodup := by
    with_unfolding_all decide
  obtain ⟨h1, _h2, h3⟩ := finalists_amended (fun q => q) dsC4 exMapC4 2024 hnd
  refine ⟨h1, ?_⟩
  rw [h3]
  with_unfolding_all rfl

/-! ## C5: wildcard selection -/

set_option maxRecDepth 4000000 in
set_option maxHeartbeats 4000000 in
/-- C5 counterexample: on `dsC5` (eleven wildcard slots, twelve
non-finalists) the wildcard list computed by the pipeline is not the
fastest non-finalists by the caller-selected scoring key `avgTime`
(which would keep racer `x`): the implementation always sorts the pool
by `avgExceptSlowest`, keeping racer `y` instead. -/
theorem wildcards_ignore_selected_key_counterexample :
    (processIntermediateData (fun q => q) dsC5 exMapC4 2024).wildcards ≠
      wildcardsBySpec (fun s => s.avgTime)
        (nonFinalistsOf
          (allDenResultsOf (processIntermediateData (fun q => q) dsC5 exMapC4 2024).classes
            (processIntermediateData (fun q => q) dsC5 exMapC4 2024).resultsByClass)
          (processIntermediateData (fun q => q) dsC5 exMapC4 2024).finalists)
        (processIntermediateData (fun q => q) dsC5 exMapC4 2024).finalists ∧
    (processIntermediateData (fun q => q) dsC5 exMapC4 2024).wildcards =
      wildcardsBySpec (fun s => s.avgExceptSlowest)
        (nonFinalistsOf
          (allDenResultsOf (processIntermediateData (fun q => q) dsC5 exMapC4 2024).classes
            (processIntermediateData (fun q => q) dsC5 exMapC4 2024).resultsByClass)
          (processIntermediateData (fun q => q) dsC5 exMapC4 2024).finalists)
        (processIntermediateData (fun q => q) dsC5 exMapC4 2024).finalists := by
  constructor
  · with_unfolding_all decide
  · rfl

/-- C5 amended: `processIntermediateData` takes no scoring-key
parameter, so the wildcard list is always the non-finalist pool stably
sorted ascending by `avgExceptSlowest` (never by a caller-selected
key) and cut to `max(0, 12 - finalistCount)` entries; its length never
exceeds that bound; every wildcard is at least as fast by
`avgExceptSlowest` as every non-finalist left out; and no racer
identity appears in both the finalist and the wildcard lists. -/
theorem wildcards_spec (sq : Rat → Rat) (ds : List (List RawRecord))
    (m : List (String × String)) (year : Nat) :
    ((processIntermediateData sq ds m year).wildcards.length : Int) ≤
      max 0 (12 - ((processIntermediateData sq ds m year).finalists.length : Int)) ∧
    (∀ w ∈ (processIntermediateData sq ds m year).wildcards,
      w ∉ (processIntermediateData sq ds m year).finalists) ∧
    (∃ sortedNF : List RacerStats,
      List.Perm sortedNF (nonFinalistsOf
        (allDenResultsOf (processIntermediateData sq ds m year).classes
          (processIntermediateData sq ds m year).resultsByClass)
        (processIntermediateData sq ds m year).finalists) ∧
      List.Sorted (fun a b : RacerStats => a.avgExceptSlowest ≤ b.avgExceptSlowest) sortedNF ∧
      (processIntermediateData sq ds m year).wildcards =
        (sortedNF.take (12 - (processIntermediateData sq ds m year).finalists.length)).map
          (fun r => r.racerId) ∧
      (∀ a ∈ sortedNF.take (12 - (processIntermediateData sq ds m year).finalists.length),
        ∀ b ∈ sortedNF.drop (12 - (processIntermediateData sq ds m year).finalists.length),
          a.avgExceptSlowest ≤ b.avgExceptSlowest)) := by
  have hw : (processIntermediateData sq ds m year).wildcards =
      (((nonFinalistsOf
          (allDenResultsOf (processIntermediateData sq ds m year).classes
            (processIntermediateData sq ds m year).resultsByClass)
          (processIntermediateData sq ds m year).finalists).insertionSort
          (fun a b => a.avgExceptSlowest ≤ b.avgExceptSlowest)).take
        (12 - (processIntermediateData sq ds m year).finalists.length)).map
        (fun r => r.racerId) := rfl
  refine ⟨?_, ?_, ?_⟩
  · have h1 : (processIntermediateData sq ds m year).wildcards.length ≤
        12 - (processIntermediateData sq ds m year).finalists.length := by
      rw [hw, List.length_map, List.length_take]
      exact Nat.min_le_left _ _
    omega
  · intro w hwmem
    rw [hw] at hwmem
    obtain ⟨r, hrtake, hrid⟩ := List.mem_map.mp hwmem
    have hrs : r ∈ (nonFinalistsOf
        (allDenResultsOf (processIntermediateData sq ds m year).classes
          (processIntermediateData sq ds m year).resultsByClass)
        (processIntermediateData sq ds m year).finalists) :=
      (List.perm_insertionSort _ _).mem_iff.mp (List.mem_of_mem_take hrtake)
    have hnc := (List.mem_filter.mp hrs).2
    rw [← hrid]
    intro hcon
    rw [Bool.not_eq_true'] at hnc
    have hc : (processIntermediateData sq ds m year).finalists.elem r.racerId = true :=
      List.elem_iff.mpr hcon
    rw [show (processIntermediateData sq ds m year).finalists.contains r.racerId =
      (processIntermediateData sq ds m year).finalists.elem r.racerId from rfl] at hnc
    rw [hc] at hnc
    cases hnc
  · refine ⟨(nonFinalistsOf
        (allDenResultsOf (processIntermediateData sq ds m year).classes
          (processIntermediateData sq ds m year).resultsByClass)
        (processIntermediateData sq ds m year).finalists).insertionSort
        (fun a b => a.avgExceptSlowest ≤ b.avgExceptSlowest),
      List.perm_insertionSort _ _, List.sorted_insertionSort _ _, hw, ?_⟩
    intro a ha b hb
    have hsorted : List.Sorted
        (fun a b : RacerStats => a.avgExceptSlowest ≤ b.avgExceptSlowest)
        ((nonFinalistsOf
            (allDenResultsOf (processIntermediateData sq ds m year).classes
              (processIntermediateData sq ds m year).resultsByClass)
            (processIntermediateData sq ds m year).finalists).insertionSort
          (fun a b => a.avgExceptSlowest ≤ b.avgExceptSlowest)) :=
      List.sorted_insertionSort _ _
    exact hsorted.rel_of_mem_take_of_mem_drop ha hb

set_option maxRecDepth 1000000 in
/-- C5 witness: on `dsC4`, racer `A` (the slower by drop-slowest) is
the single wildcard, is not a finalist, and the count bound holds. -/
theorem wildcards_spec_witness :
    (processIntermediateData (fun q => q) dsC4 exMapC4 2024).wildcards.length = 1 ∧
    ((processIntermediateData (fun q => q) dsC4 exMapC4 2024).wildcards.length : Int) ≤
      max 0 (12 -
        ((processIntermediateData (fun q => q) dsC4 exMapC4 2024).finalists.length : Int)) ∧
    ("A Z (#1" ++ apos ++ "2024) - Wolf Den") ∈
      (processIntermediateData (fun q => q) dsC4 exMapC4 2024).wildcards ∧
    ("A Z (#1" ++ apos ++ "2024) - Wolf Den") ∉
      (processIntermediateData (fun q => q) dsC4 exMapC4 2024).finalists := by
  obtain ⟨h1, h2, _⟩ := wildcards_spec (fun q => q) dsC4 exMapC4 2024
  have hmem : ("A Z (#1" ++ apos ++ "2024) - Wolf Den") ∈
      (processIntermediateData (fun q => q) dsC4 exMapC4 2024).wildcards := by
    with_unfolding_all decide
  exact ⟨by with_unfolding_all rfl, h1, hmem, h2 _ hmem⟩

/-! ## C8: order independence. Permutation invariance of group statistics -/

theorem foldl_max_spec (l : List Rat) : ∀ a : Rat,
    (l.foldl max a = a ∨ l.foldl max a ∈ l) ∧ a ≤ l.foldl max a ∧
      ∀ t ∈ l, t ≤ l.foldl max a := by
  induction l with
  | nil => intro a; simp
  | cons x xs ih =>
    intro a
    obtain ⟨hmem, hself, hub⟩ := ih (max a x)
    rw [List.foldl_cons]
    refine ⟨?_, ?_, ?_⟩
    · rcases hmem with h | h
      · rcases max_choice a x with hm | hm
        · left
          rw [h, hm]
        · right
          rw [h, hm]
          exact List.mem_cons_self x xs
      · right
        exact List.mem_cons_of_mem x h
    · exact le_trans (le_max_left a x) hself
    · intro t ht
      rcases List.mem_cons.mp ht with h | h
      · rw [h]
        exact le_trans (le_max_right a x) hself
      · exact hub t h

theorem foldl_min_spec (l : List Rat) : ∀ a : Rat,
    (l.foldl min a = a ∨ l.foldl min a ∈ l) ∧ l.foldl min a ≤ a ∧
      ∀ t ∈ l, l.foldl min a ≤ t := by
  induction l with
  | nil => intro a; simp
  | cons x xs ih =>
    intro a
    obtain ⟨hmem, hself, hlb⟩ := ih (min a x)
    rw [List.foldl_cons]
    refine ⟨?_, ?_, ?_⟩
    · rcases hmem with h | h
      · rcases min_choice a x with hm | hm
        · left
          rw [h, hm]
        · right
          rw [h, hm]
          exact List.mem_cons_self x xs
      · right
        exact List.mem_cons_of_mem x h
    · exact le_trans hself (min_le_left a x)
    · intro t ht
      rcases List.mem_cons.mp ht with h | h
      · rw [h]
        exact le_trans hself (min_le_right a x)
      · exact hlb t h

theorem jsMax_mem_ub (l : List Rat) (hne : l ≠ []) :
    jsMax l ∈ l ∧ ∀ t ∈ l, t ≤ jsMax l := by
  cases l with
  | nil => exact absurd rfl hne
  | cons x xs =>
    obtain ⟨hmem, hself, hub⟩ := foldl_max_spec xs x
    rw [jsMax]
    constructor
    · rcases hmem with h | h
      · rw [h]
        exact List.mem_cons_self x xs
      · exact List.mem_cons_of_mem x h
    · intro t ht
      rcases List.mem_cons.mp ht with h | h
      · rw [h]
        exact hself
      · exact hub t h

theorem jsMin_mem_lb (l : List Rat) (hne : l ≠ []) :
    jsMin l ∈ l ∧ ∀ t ∈ l, jsMin l ≤ t := by
  cases l with
  | nil => exact absurd rfl hne
  | cons x xs =>
    obtain ⟨hmem, hself, hlb⟩ := foldl_min_spec xs x
    rw [jsMin]
    constructor
    · rcases hmem with h | h
      · rw [h]
        exact List.mem_cons_self x xs
      · exact List.mem_cons_of_mem x h
    · intro t ht
      rcases List.mem_cons.mp ht with h | h
      · rw [h]
        exact hself
      · exact hlb t h

theorem jsMax_perm (l₁ l₂ : List Rat) (h : List.Perm l₁ l₂) : jsMax l₁ = jsMax l₂ := by
  cases l₁ with
  | nil =>
    have : l₂ = [] := h.nil_eq.symm
    rw [this]
  | cons x xs =>
    have hne₁ : (x :: xs) ≠ ([] : List Rat) := by simp
    have hne₂ : l₂ ≠ [] := by
      intro hcon
      rw [hcon] at h
      exact hne₁ h.eq_nil
    obtain ⟨hm₁, hub₁⟩ := jsMax_mem_ub (x :: xs) hne₁
    obtain ⟨hm₂, hub₂⟩ := jsMax_mem_ub l₂ hne₂
    exact le_antisymm (hub₂ _ (h.mem_iff.mp hm₁)) (hub₁ _ (h.mem_iff.mpr hm₂))

theorem jsMin_perm (l₁ l₂ : List Rat) (h : List.Perm l₁ l₂) : jsMin l₁ = jsMin l₂ := by
  cases l₁ with
  | nil =>
    have : l₂ = [] := h.nil_eq.symm
    rw [this]
  | cons x xs =>
    have hne₁ : (x :: xs) ≠ ([] : List Rat) := by simp
    have hne₂ : l₂ ≠ [] := by
      intro hcon
      rw [hcon] at h
      exact hne₁ h.eq_nil
    obtain ⟨hm₁, hlb₁⟩ := jsMin_mem_lb (x :: xs) hne₁
    obtain ⟨hm₂, hlb₂⟩ := jsMin_mem_lb l₂ hne₂
    exact le_antisymm (hlb₁ _ (h.mem_iff.mpr hm₂)) (hlb₂ _ (h.mem_iff.mp hm₁))

theorem foldl_add_perm (l₁ l₂ : List Rat) (h : List.Perm l₁ l₂) :
    l₁.foldl (· + ·) 0 = l₂.foldl (· + ·) 0 :=
  h.foldl_eq' (fun x _ y _ z => by ring) 0

theorem insertionSort_perm_eq (l₁ l₂ : List Rat) (h : List.Perm l₁ l₂) :
    l₁.insertionSort (fun a b => a ≤ b) = l₂.insertionSort (fun a b => a ≤ b) := by
  have hs₁ : List.Sorted (fun a b : Rat => a ≤ b) (l₁.insertionSort (fun a b => a ≤ b)) :=
    List.sorted_insertionSort _ l₁
  have hs₂ : List.Sorted (fun a b : Rat => a ≤ b) (l₂.insertionSort (fun a b => a ≤ b)) :=
    List.sorted_insertionSort _ l₂
  exact List.eq_of_perm_of_sorted
    (((List.perm_insertionSort _ l₁).trans h).trans (List.perm_insertionSort _ l₂).symm)
    hs₁ hs₂

theorem statsOfGroup_bestTime (sq : Rat → Rat) (rep : RaceResult) (l : List Rat)
    (h0 : (l.filter (fun t => decide (0 < t))).length ≠ 0) :
    (statsOfGroup sq rep l).bestTime = jsMin (l.filter (fun t => decide (0 < t))) := by
  simp only [statsOfGroup]
  rw [if_neg h0]

theorem statsOfGroup_worstTime (sq : Rat → Rat) (rep : RaceResult) (l : List Rat)
    (h0 : (l.filter (fun t => decide (0 < t))).length ≠ 0) :
    (statsOfGroup sq rep l).worstTime = jsMax (l.filter (fun t => decide (0 < t))) := by
  simp only [statsOfGroup]
  rw [if_neg h0]

theorem statsOfGroup_median (sq : Rat → Rat) (rep : RaceResult) (l : List Rat)
    (h0 : (l.filter (fun t => decide (0 < t))).length ≠ 0) :
    (statsOfGroup sq rep l).median =
      (if (l.filter (fun t => decide (0 < t))).length % 2 = 0 then
        (((l.filter (fun t => decide (0 < t))).insertionSort (fun a b => a ≤ b)).getD
            ((l.filter (fun t => decide (0 < t))).length / 2 - 1) 0 +
          ((l.filter (fun t => decide (0 < t))).insertionSort (fun a b => a ≤ b)).getD
            ((l.filter (fun t => decide (0 < t))).length / 2) 0) / 2
      else ((l.filter (fun t => decide (0 < t))).insertionSort (fun a b => a ≤ b)).getD
        ((l.filter (fun t => decide (0 < t))).length / 2) 0) := by
  simp only [statsOfGroup]
  rw [if_neg h0]

theorem statsOfGroup_stdDev (sq : Rat → Rat) (rep : RaceResult) (l : List Rat)
    (h0 : (l.filter (fun t => decide (0 < t))).length ≠ 0) :
    (statsOfGroup sq rep l).stdDev =
      sq (((l.filter (fun t => decide (0 < t))).map (fun t =>
          (t - (l.filter (fun t => decide (0 < t))).foldl (· + ·) 0 /
            ((l.filter (fun t => decide (0 < t))).length : Rat)) ^ 2)).foldl (· + ·) 0 /
        ((l.filter (fun t => decide (0 < t))).length : Rat)) := by
  simp only [statsOfGroup]
  rw [if_neg h0]

theorem numericStats_statsOfGroup (sq : Rat → Rat) (rep : RaceResult) (l : List Rat) :
    numericStats (statsOfGroup sq rep l) = numericStatsOfTimes sq l := by
  unfold numericStatsOfTimes
  simp only [statsOfGroup, numericStats]
  by_cases h : (l.filter (fun t => decide (0 < t))).length = 0
  · rw [if_pos h, if_pos h]
  · rw [if_neg h, if_neg h]

theorem numericStatsOfTimes_perm (sq : Rat → Rat) (T₁ T₂ : List Rat)
    (h : List.Perm T₁ T₂) :
    numericStatsOfTimes sq T₁ = numericStatsOfTimes sq T₂ := by
  have hf : List.Perm (T₁.filter (fun t => decide (0 < t)))
      (T₂.filter (fun t => decide (0 < t))) := h.filter _
  have hlen : (T₁.filter (fun t => decide (0 < t))).length =
      (T₂.filter (fun t => decide (0 < t))).length := hf.length_eq
  have hsum : (T₁.filter (fun t => decide (0 < t))).foldl (· + ·) 0 =
      (T₂.filter (fun t => decide (0 < t))).foldl (· + ·) 0 := foldl_add_perm _ _ hf
  have hmax : jsMax (T₁.filter (fun t => decide (0 < t))) =
      jsMax (T₂.filter (fun t => decide (0 < t))) := jsMax_perm _ _ hf
  have hmin : jsMin (T₁.filter (fun t => decide (0 < t))) =
      jsMin (T₂.filter (fun t => decide (0 < t))) := jsMin_perm _ _ hf
  have hsort : (T₁.filter (fun t => decide (0 < t))).insertionSort (fun a b => a ≤ b) =
      (T₂.filter (fun t => decide (0 < t))).insertionSort (fun a b => a ≤ b) :=
    insertionSort_perm_eq _ _ hf
  by_cases h0 : (T₁.filter (fun t => decide (0 < t))).length = 0
  · have h0' : (T₂.filter (fun t => decide (0 < t))).length = 0 := by omega
    rw [← numericStats_statsOfGroup sq default T₁, ← numericStats_statsOfGroup sq default T₂]
    simp only [statsOfGroup, numericStats]
    rw [if_pos h0, if_pos h0']
  · have h0' : (T₂.filter (fun t => decide (0 < t))).length ≠ 0 := by omega
    have hvar : ((T₁.filter (fun t => decide (0 < t))).map (fun t =>
        (t - (T₁.filter (fun t => decide (0 < t))).foldl (· + ·) 0 /
          ((T₁.filter (fun t => decide (0 < t))).length : Rat)) ^ 2)).foldl (· + ·) 0 =
        ((T₂.filter (fun t => decide (0 < t))).map (fun t =>
        (t - (T₂.filter (fun t => decide (0 < t))).foldl (· + ·) 0 /
          ((T₂.filter (fun t => decide (0 < t))).length : Rat)) ^ 2)).foldl (· + ·) 0 := by
      rw [hsum, hlen]
      exact foldl_add_perm _ _ (hf.map _)
    rw [← numericStats_statsOfGroup sq default T₁, ← numericStats_statsOfGroup sq default T₂]
    unfold numericStats
    rw [statsOfGroup_raceCount, statsOfGroup_raceCount,
      statsOfGroup_avgTime sq default T₁ h0, statsOfGroup_avgTime sq default T₂ h0',
      statsOfGroup_bestTime sq default T₁ h0, statsOfGroup_bestTime sq default T₂ h0',
      statsOfGroup_worstTime sq default T₁ h0, statsOfGroup_worstTime sq default T₂ h0',
      statsOfGroup_median sq default T₁ h0, statsOfGroup_median sq default T₂ h0',
      statsOfGroup_stdDev sq default T₁ h0, statsOfGroup_stdDev sq default T₂ h0']
    by_cases h1 : 1 < (T₁.filter (fun t => decide (0 < t))).length
    · have h1' : 1 < (T₂.filter (fun t => decide (0 < t))).length := by omega
      rw [statsOfGroup_avgES_of_lt sq default T₁ h1, statsOfGroup_avgES_of_lt sq default T₂ h1']
      rw [hvar, hsum, hlen, hmax, hmin, hsort]
    · have h1' : ¬ 1 < (T₂.filter (fun t => decide (0 < t))).length := by omega
      rw [statsOfGroup_avgES_of_le sq default T₁ h0 h1,
        statsOfGroup_avgES_of_le sq default T₂ h0' h1',
        statsOfGroup_avgTime sq default T₁ h0, statsOfGroup_avgTime sq default T₂ h0']
      rw [hvar, hsum, hlen, hmax, hmin, hsort]

theorem statsForGroup_filterMapKeys (sq : Rat → Rat) (results : List RaceResult)
    (k : String) : ∀ ks : List String,
    (∀ k' ∈ ks, ∃ r ∈ results, groupKey r = k') →
    ((ks.filterMap (fun k' =>
        (results.find? (fun r => groupKey r = k')).map (fun rep =>
          statsOfGroup sq rep (groupTimes results k')))).find?
      (fun s => statsGroupKey s = k)).map numericStats =
    (if k ∈ ks then some (numericStatsOfTimes sq (groupTimes results k)) else none) := by
  intro ks
  induction ks with
  | nil => simp
  | cons k' ks ih =>
    intro hks
    have hex := hks k' (List.mem_cons_self _ _)
    have hfind : (results.find? (fun r => groupKey r = k')).isSome := by
      rw [List.find?_isSome]
      obtain ⟨r, hr, hrk⟩ := hex
      exact ⟨r, hr, by simp [hrk]⟩
    obtain ⟨rep, hrep⟩ := Option.isSome_iff_exists.mp hfind
    have hkrep : groupKey rep = k' := by simpa using List.find?_some hrep
    rw [List.filterMap_cons, hrep, Option.map_some']
    have hkey : statsGroupKey (statsOfGroup sq rep (groupTimes results k')) = k' := by
      rw [statsGroupKey_statsOfGroup]
      exact hkrep
    by_cases hkk : k' = k
    · subst hkk
      rw [List.find?_cons_of_pos _ (by simp [hkey])]
      rw [Option.map_some', numericStats_statsOfGroup]
      rw [if_pos (List.mem_cons_self _ _)]
    · rw [List.find?_cons_of_neg _ (by simp [hkey, hkk])]
      rw [ih (fun x hx => hks x (List.mem_cons_of_mem _ hx))]
      by_cases hkmem : k ∈ ks
      · rw [if_pos hkmem, if_pos (List.mem_cons_of_mem _ hkmem)]
      · rw [if_neg hkmem, if_neg (by
          intro hc
          rcases List.mem_cons.mp hc with h | h
          · exact hkk h.symm
          · exact hkmem h)]

theorem statsForGroup_calc (sq : Rat → Rat) (results : List RaceResult) (k : String) :
    statsForGroup (calculateRacerStatsFromMapped sq results) k =
      (if k ∈ results.map groupKey then
        some (numericStatsOfTimes sq (groupTimes results k)) else none) := by
  unfold statsForGroup calculateRacerStatsFromMapped
  rw [statsForGroup_filterMapKeys sq results k (dedupKeys (results.map groupKey))
    (fun k' hk' => by
      rw [mem_dedupKeys] at hk'
      obtain ⟨r, hr, hrk⟩ := List.mem_map.mp hk'
      exact ⟨r, hr, hrk⟩)]
  by_cases hk : k ∈ results.map groupKey
  · rw [if_pos ((mem_dedupKeys _ _).mpr hk), if_pos hk]
  · rw [if_neg (fun hc => hk ((mem_dedupKeys _ _).mp hc)), if_neg hk]

theorem groupTimes_toRaceResults (classes : List ClassEntry) (M : List CanonRecord)
    (k : String) :
    groupTimes ((M.filter posFinish).map (toRaceResult classes)) k =
      ((M.filter posFinish).filter (fun r => canonGroupKey r = k)).map
        (fun r => (r.FinishTime).getD 0) := by
  unfold groupTimes
  rw [List.filter_map, List.map_map]
  rfl

theorem mapGroupKey_toRaceResults (classes : List ClassEntry) (M : List CanonRecord) :
    ((M.filter posFinish).map (toRaceResult classes)).map groupKey =
      (M.filter posFinish).map canonGroupKey := by
  rw [List.map_map]
  rfl

theorem statsForGroup_calc_canon (sq : Rat → Rat) (M : List CanonRecord)
    (classes : List ClassEntry) (k : String) :
    statsForGroup (calculateRacerStatsFromMapped sq
        ((M.filter posFinish).map (toRaceResult classes))) k =
      (if k ∈ (M.filter posFinish).map canonGroupKey then
        some (numericStatsOfTimes sq
          (((M.filter posFinish).filter (fun r => canonGroupKey r = k)).map
            (fun r => (r.FinishTime).getD 0)))
      else none) := by
  rw [statsForGroup_calc, mapGroupKey_toRaceResults, groupTimes_toRaceResults]

/-- C8: merging two source bundles in either order yields identical
per-group statistics: for every group key, the seven numeric statistics
(avgTime, avgExceptSlowest, bestTime, worstTime, median, stdDev,
raceCount) recorded by the pipeline are the same whether the bundles
are processed as `[A, B]` or as `[B, A]`. -/
theorem order_independence (sq : Rat → Rat) (A B : List RawRecord)
    (m : List (String × String)) (year : Nat) (k : String) :
    statsForGroup (processIntermediateData sq [A, B] m year).racerStats k =
      statsForGroup (processIntermediateData sq [B, A] m year).racerStats k := by
  have hAB : ([A, B].flatMap (fun rawRecords => applyClassMapping rawRecords m year)) =
      applyClassMapping A m year ++ applyClassMapping B m year := by
    rw [List.flatMap_cons, List.flatMap_cons, List.flatMap_nil, List.append_nil]
  have hBA : ([B, A].flatMap (fun rawRecords => applyClassMapping rawRecords m year)) =
      applyClassMapping B m year ++ applyClassMapping A m year := by
    rw [List.flatMap_cons, List.flatMap_cons, List.flatMap_nil, List.append_nil]
  have h1 : (processIntermediateData sq [A, B] m year).racerStats =
      calculateRacerStatsFromMapped sq
        ((([A, B].flatMap (fun rawRecords => applyClassMapping rawRecords m year)).filter
            posFinish).map
          (toRaceResult (classesOf
            ([A, B].flatMap (fun rawRecords => applyClassMapping rawRecords m year))))) := rfl
  have h2 : (processIntermediateData sq [B, A] m year).racerStats =
      calculateRacerStatsFromMapped sq
        ((([B, A].flatMap (fun rawRecords => applyClassMapping rawRecords m year)).filter
            posFinish).map
          (toRaceResult (classesOf
            ([B, A].flatMap (fun rawRecords => applyClassMapping rawRecords m year))))) := rfl
  rw [h1, h2, hAB, hBA, statsForGroup_calc_canon, statsForGroup_calc_canon]
  rw [List.filter_append, List.filter_append, List.map_append, List.map_append,
    List.filter_append, List.filter_append, List.map_append, List.map_append]
  by_cases hk : k ∈ ((applyClassMapping A m year).filter posFinish).map canonGroupKey ++
      ((applyClassMapping B m year).filter posFinish).map canonGroupKey
  · have hk' : k ∈ ((applyClassMapping B m year).filter posFinish).map canonGroupKey ++
        ((applyClassMapping A m year).filter posFinish).map canonGroupKey := by
      rw [List.mem_append] at hk ⊢
      exact hk.symm
    rw [if_pos hk, if_pos hk']
    congr 1
    exact numericStatsOfTimes_perm sq _ _ List.perm_append_comm
  · have hk' : k ∉ ((applyClassMapping B m year).filter posFinish).map canonGroupKey ++
        ((applyClassMapping A m year).filter posFinish).map canonGroupKey := by
      rw [List.mem_append] at hk ⊢
      intro hc
      exact hk hc.symm
    rw [if_neg hk, if_neg hk']

end Derby
